import Mathlib

set_option maxRecDepth 100000

/-!
Verification of the diff-annotation and review-comment logic of the
AI code-review scripts (`scripts/ai-code-reviewer/review.py` and
`scripts/review.py`).

The Python functions `summarize_multi_file_diff`, `parse_review_comments`,
`wrap_suggestion_code` and the per-comment posting loop of
`post_review_comments` are shallowly embedded as executable Lean functions.
Machine-independent Python text operations (`str.splitlines`, `str.strip`,
slicing, width-4 number formatting) are modelled over `List Char` / `String`,
and fallible operations (an exception raised inside the loop body, a failed
width-4 format on an unset `None` counter, a JSON parse error) are modelled
with `Option`.
-/

/-! ## String utilities modelling Python primitives -/

/-- Model of `str.startswith(pre)`: code-point-level prefix test. -/
def strStarts (s pre : String) : Bool :=
  pre.data.isPrefixOf s.data

/-- Model of Python slicing `s[k:]` (by code points). -/
def strDrop (s : String) (k : Nat) : String :=
  String.mk (s.data.drop k)

/-- Characters treated as whitespace by `str.strip()` (ASCII whitespace;
exotic Unicode whitespace does not occur in the inputs of interest). -/
def isPySpace (c : Char) : Bool :=
  c = ' ' || c = '\t' || c = '\n' || c = '\x0d' || c = '\x0b' || c = '\x0c'

/-- Model of `str.strip()`: remove leading and trailing whitespace. -/
def pyStrip (s : String) : String :=
  String.mk (((s.data.dropWhile isPySpace).reverse.dropWhile isPySpace).reverse)

/-- Line-break characters recognised by `str.splitlines()`. -/
def isLineBreak (c : Char) : Bool :=
  c = '\n' || c = '\x0d' || c = '\x0b' || c = '\x0c' ||
  c = '\x1c' || c = '\x1d' || c = '\x1e' || c = '\x85' ||
  c = '\u2028' || c = '\u2029'

/-- Splitting helper for `str.splitlines()`; `cur` accumulates the current
line reversed.  A carriage return immediately followed by a line feed counts as one
terminator; a final unterminated segment is kept only when non-empty. -/
def splitAux (cur : List Char) : List Char → List (List Char)
  | [] => if cur.isEmpty then [] else [cur.reverse]
  | '\x0d' :: '\n' :: rest => cur.reverse :: splitAux [] rest
  | c :: rest =>
    if isLineBreak c then cur.reverse :: splitAux [] rest
    else splitAux (c :: cur) rest

/-- Model of `str.splitlines()`. -/
def pySplitlines (s : String) : List String :=
  (splitAux [] s.data).map String.mk

/-- Decimal digit run at the front of a character list (regex `\d+`, greedy). -/
def takeDigits (s : List Char) : List Char :=
  s.takeWhile Char.isDigit

/-- Value of a decimal digit string (Python `int` of the captured group). -/
def natOfDigits (ds : List Char) : Nat :=
  ds.foldl (fun n c => n * 10 + (c.toNat - 48)) 0

/-- Substring test: does `pat` occur anywhere in `s`? -/
def hasSub (pat : List Char) : List Char → Bool
  | [] => pat.isPrefixOf []
  | c :: rest => pat.isPrefixOf (c :: rest) || hasSub pat rest

/-- At a candidate position for the regex tail ` \+(\d+).* @@`: require a
space, a plus, a non-empty digit run (greedy `\d+`), and an occurrence of
`" @@"` somewhere in the remainder (the greedy `.*` backtracks to it).
Returns the captured digit run. -/
def plusAt : List Char → Option (List Char)
  | ' ' :: '+' :: rest =>
    let d2 := takeDigits rest
    if d2.isEmpty then none
    else if hasSub [' ', '@', '@'] (rest.drop d2.length) then some d2
    else none
  | _ => none

/-- Backtracking search for the regex tail: the greedy `.*` before ` \+`
makes the engine try candidate positions from the right, so the rightmost
position at which `plusAt` succeeds wins. -/
def searchPlus : List Char → Option (List Char)
  | [] => none
  | c :: rest =>
    match searchPlus rest with
    | some d => some d
    | none => plusAt (c :: rest)

/-- Model of the `re.match` call on the pattern `^@@ -(\d+).* \+(\d+).* @@`, returning the
two captured integers.  `re.match` anchors at the start only; `(\d+)` is
greedy (and since `.` also matches digits, the maximal digit run is always
the capture); the greedy `.*` gives the rightmost viable ` \+` position. -/
def parseHunkHeader (line : String) : Option (Nat × Nat) :=
  let cs := line.data
  if ['@', '@', ' ', '-'].isPrefixOf cs then
    let s1 := cs.drop 4
    let d1 := takeDigits s1
    if d1.isEmpty then none
    else
      match searchPlus (s1.drop d1.length) with
      | some d2 => some (natOfDigits d1, natOfDigits d2)
      | none => none
  else none

/-! ## The diff-annotation state machine (`summarize_multi_file_diff`) -/

/-- The mutable state of `summarize_multi_file_diff`: the accumulated
`results` transcript lines, the current `file_path` (Python `None` or a
string), the per-file `old_lines` / `new_lines` buffers, and the two line
counters (Python `None` until a hunk header is matched). -/
structure DiffState where
  results : List String
  file_path : Option String
  old_lines : List String
  new_lines : List String
  old_num : Option Nat
  new_num : Option Nat
deriving Repr, DecidableEq

/-- Python truthiness of the `file_path` variable: `None` and the empty
string are falsy. -/
def truthyStr : Option String → Bool
  | none => false
  | some s => !s.data.isEmpty

/-- Model of the inner `flush()`: when `file_path` is truthy, append the
file block (`filePath:` header, non-empty `old_hunk` section, non-empty
`new_hunk` section, blank separator) to `results`.  Nothing else changes;
in particular `flush` itself resets no state. -/
def flushResults (st : DiffState) : List String :=
  match st.file_path with
  | none => st.results
  | some fp =>
    if fp.data.isEmpty then st.results
    else
      st.results ++ ["filePath: " ++ fp]
        ++ (if st.old_lines.isEmpty then [] else "old_hunk (before change):" :: st.old_lines)
        ++ (if st.new_lines.isEmpty then [] else "\nnew_hunk (after change):" :: st.new_lines)
        ++ [""]

/-- Model of the format spec `{n:4}`: decimal representation right-aligned to width 4. -/
def pad4 (n : Nat) : String :=
  String.mk (List.replicate (4 - (toString n).length) ' ') ++ toString n

/-- One annotated buffer entry: sign, width-4 number, ` | `, content. -/
def fmtEntry (sign : Char) (n : Nat) (content : String) : String :=
  String.mk [sign] ++ pad4 n ++ " | " ++ content

/-- Classification of one diff line by the `if`/`elif` chain of the loop
body of `summarize_multi_file_diff`, in source order. -/
inductive LineKind where
  | fileBoundary
  | fileMark
  | hunkHdr (v : Option (Nat × Nat))
  | delLine
  | addLine
  | ctxLine
  | otherLine
deriving Repr, DecidableEq

/-- Which branch of the loop body fires for a given line. -/
def lineKind (l : String) : LineKind :=
  if strStarts l "diff --git" then .fileBoundary
  else if strStarts l "+++ b/" then .fileMark
  else if strStarts l "@@" then .hunkHdr (parseHunkHeader l)
  else if strStarts l "-" && !strStarts l "---" then .delLine
  else if strStarts l "+" && !strStarts l "+++" then .addLine
  else if strStarts l " " then .ctxLine
  else .otherLine

/-- One iteration of the loop of `summarize_multi_file_diff`.  `none`
models the `TypeError` Python raises when the width-4 format of `old_num`
(or of `new_num`) is evaluated while the counter is still `None`. -/
def summStep (st : DiffState) (l : String) : Option DiffState :=
  match lineKind l with
  | .fileBoundary =>
    some { st with results := flushResults st, old_lines := [], new_lines := [] }
  | .fileMark =>
    some { st with file_path := some (pyStrip (strDrop l 6)) }
  | .hunkHdr none => some st
  | .hunkHdr (some (o, n)) => some { st with old_num := some o, new_num := some n }
  | .delLine =>
    match st.old_num with
    | none => none
    | some o =>
      some { st with old_lines := st.old_lines ++ [fmtEntry '-' o (strDrop l 1)],
                     old_num := some (o + 1) }
  | .addLine =>
    match st.new_num with
    | none => none
    | some n =>
      some { st with new_lines := st.new_lines ++ [fmtEntry '+' n (strDrop l 1)],
                     new_num := some (n + 1) }
  | .ctxLine =>
    match st.old_num, st.new_num with
    | some o, some n =>
      some { st with old_lines := st.old_lines ++ [fmtEntry ' ' o (strDrop l 1)],
                     new_lines := st.new_lines ++ [fmtEntry ' ' n (strDrop l 1)],
                     old_num := some (o + 1), new_num := some (n + 1) }
    | _, _ => none
  | .otherLine => some st

/-- Folding the loop body over the list of diff lines. -/
def processLines (ls : List String) (st : DiffState) : Option DiffState :=
  match ls with
  | [] => some st
  | l :: rest =>
    match summStep st l with
    | none => none
    | some st2 => processLines rest st2

/-- The initial state of `summarize_multi_file_diff`. -/
def initState : DiffState :=
  ⟨[], none, [], [], none, none⟩

/-- Model of `summarize_multi_file_diff`: split the diff into lines, run
the loop, perform the final `flush()` and join with newlines.  `none`
models an uncaught `TypeError` from formatting an unset counter. -/
def summarize_multi_file_diff (diff_text : String) : Option String :=
  match processLines (pySplitlines diff_text) initState with
  | none => none
  | some st => some (String.intercalate "\n" (flushResults st))


/-! ## JSON values and a model of `json.loads` -/

/-- JSON values as decoded by Python `json.loads`.  Integral numbers decode
to Python `int` (`jint`); numbers with a fraction or exponent decode to
`float`, kept here as their decimal lexeme (`jfloat`) since no claim
computes with floats.  Objects keep their key/value pairs in source order;
Python `dict` semantics (last duplicate key wins) are applied at lookup. -/
inductive J where
  | jnull
  | jbool (b : Bool)
  | jint (n : Int)
  | jfloat (lex : String)
  | jstr (s : String)
  | jarr (xs : List J)
  | jobj (kvs : List (String × J))
deriving Repr

/-- JSON inter-token whitespace (the four characters `json` skips). -/
def jsonWsChar (c : Char) : Bool :=
  c = ' ' || c = '\t' || c = '\n' || c = '\x0d'

/-- Skip JSON whitespace. -/
def skipWs (s : List Char) : List Char :=
  s.dropWhile jsonWsChar

/-- Hexadecimal digit value. -/
def hexVal (c : Char) : Option Nat :=
  if '0' ≤ c && c ≤ '9' then some (c.toNat - 48)
  else if 'a' ≤ c && c ≤ 'f' then some (c.toNat - 87)
  else if 'A' ≤ c && c ≤ 'F' then some (c.toNat - 55)
  else none

/-- Body of a JSON string after the opening quote: returns the decoded
characters and the remainder after the closing quote.  The strict mode of
Python rejects unescaped control characters; `\uXXXX` escapes decode code
units, with surrogate pairs combined (a lone surrogate, not representable
as a Lean `Char`, is rejected). -/
def parseStrBody : Nat → List Char → Option (List Char × List Char)
  | 0, _ => none
  | _, [] => none
  | fu + 1, c :: rest =>
    if c = '"' then some ([], rest)
    else if c = '\\' then
      match rest with
      | [] => none
      | e :: rest2 =>
        let simple : Option Char :=
          if e = '"' then some '"'
          else if e = '\\' then some '\\'
          else if e = '/' then some '/'
          else if e = 'b' then some '\x08'
          else if e = 'f' then some '\x0c'
          else if e = 'n' then some '\n'
          else if e = 'r' then some '\x0d'
          else if e = 't' then some '\t'
          else none
        match simple with
        | some d =>
          match parseStrBody fu rest2 with
          | some (cs, r) => some (d :: cs, r)
          | none => none
        | none =>
          if e = 'u' then
            match rest2 with
            | h1 :: h2 :: h3 :: h4 :: rest3 =>
              match hexVal h1, hexVal h2, hexVal h3, hexVal h4 with
              | some a, some b, some c3, some d4 =>
                let n := ((a * 16 + b) * 16 + c3) * 16 + d4
                if 0xd800 ≤ n && n ≤ 0xdbff then
                  match rest3 with
                  | '\\' :: 'u' :: g1 :: g2 :: g3 :: g4 :: rest4 =>
                    match hexVal g1, hexVal g2, hexVal g3, hexVal g4 with
                    | some a2, some b2, some c2, some d2 =>
                      let m := ((a2 * 16 + b2) * 16 + c2) * 16 + d2
                      if 0xdc00 ≤ m && m ≤ 0xdfff then
                        let u := 0x10000 + (n - 0xd800) * 0x400 + (m - 0xdc00)
                        if u < 0x110000 then
                          match parseStrBody fu rest4 with
                          | some (cs, r) => some (Char.ofNat u :: cs, r)
                          | none => none
                        else none
                      else none
                    | _, _, _, _ => none
                  | _ => none
                else if 0xdc00 ≤ n && n ≤ 0xdfff then none
                else
                  match parseStrBody fu rest3 with
                  | some (cs, r) => some (Char.ofNat n :: cs, r)
                  | none => none
              | _, _, _, _ => none
            | _ => none
          else none
    else if c.toNat < 32 then none
    else
      match parseStrBody fu rest with
      | some (cs, r) => some (c :: cs, r)
      | none => none

/-- Exponent suffix of a JSON number: optional sign then digits. -/
def readExpDigits (s : List Char) : Option (List Char × List Char) :=
  match s with
  | '+' :: r =>
    let d := takeDigits r
    if d.isEmpty then none else some ('+' :: d, r.drop d.length)
  | '-' :: r =>
    let d := takeDigits r
    if d.isEmpty then none else some ('-' :: d, r.drop d.length)
  | _ =>
    let d := takeDigits s
    if d.isEmpty then none else some (d, s.drop d.length)

/-- A JSON number literal: `-?(0|[1-9][0-9]*)(\.[0-9]+)?([eE][+-]?[0-9]+)?`.
Purely integral literals give `jint`; otherwise the lexeme is kept. -/
def parseNum (s : List Char) : Option (J × List Char) :=
  let (neg, s1) := match s with | '-' :: r => (true, r) | _ => (false, s)
  let ip := takeDigits s1
  if ip.isEmpty then none
  else if ip.length > 1 && ip.headD '0' = '0' then none
  else
    let s2 := s1.drop ip.length
    let fracRes : Option (List Char × List Char) :=
      match s2 with
      | '.' :: r =>
        let d := takeDigits r
        if d.isEmpty then none else some ('.' :: d, r.drop d.length)
      | _ => some ([], s2)
    match fracRes with
    | none => none
    | some (fr, s3) =>
      let expRes : Option (List Char × List Char) :=
        match s3 with
        | 'e' :: r => (readExpDigits r).map (fun p => ('e' :: p.1, p.2))
        | 'E' :: r => (readExpDigits r).map (fun p => ('E' :: p.1, p.2))
        | _ => some ([], s3)
      match expRes with
      | none => none
      | some (ex, s4) =>
        if fr.isEmpty && ex.isEmpty then
          some (J.jint (if neg then -(natOfDigits ip : Int) else (natOfDigits ip : Int)), s4)
        else
          some (J.jfloat (String.mk ((if neg then ['-'] else []) ++ ip ++ fr ++ ex)), s4)

mutual

/-- One JSON value (fuel-indexed recursive-descent, Python `json.loads`
grammar including the Python-accepted `NaN`/`Infinity` constants). -/
def parseVal : Nat → List Char → Option (J × List Char)
  | 0, _ => none
  | fu + 1, s0 =>
    let s := skipWs s0
    match s with
    | [] => none
    | c :: rest =>
      if c = '\x7b' then
        match skipWs rest with
        | '\x7d' :: r => some (J.jobj [], r)
        | r => parseMembers fu r []
      else if c = '[' then
        match skipWs rest with
        | ']' :: r => some (J.jarr [], r)
        | r => parseItems fu r []
      else if c = '"' then
        match parseStrBody (fu + 1) rest with
        | some (cs, r) => some (J.jstr (String.mk cs), r)
        | none => none
      else if ['t', 'r', 'u', 'e'].isPrefixOf s then some (J.jbool true, s.drop 4)
      else if ['f', 'a', 'l', 's', 'e'].isPrefixOf s then some (J.jbool false, s.drop 5)
      else if ['n', 'u', 'l', 'l'].isPrefixOf s then some (J.jnull, s.drop 4)
      else if ['N', 'a', 'N'].isPrefixOf s then some (J.jfloat "NaN", s.drop 3)
      else if ['I', 'n', 'f', 'i', 'n', 'i', 't', 'y'].isPrefixOf s then
        some (J.jfloat "Infinity", s.drop 8)
      else if ['-', 'I', 'n', 'f', 'i', 'n', 'i', 't', 'y'].isPrefixOf s then
        some (J.jfloat "-Infinity", s.drop 9)
      else parseNum s

/-- Members of a JSON object after at least one member is required. -/
def parseMembers : Nat → List Char → List (String × J) → Option (J × List Char)
  | 0, _, _ => none
  | fu + 1, s0, acc =>
    match skipWs s0 with
    | '"' :: r =>
      match parseStrBody (fu + 1) r with
      | none => none
      | some (k, r2) =>
        match skipWs r2 with
        | ':' :: r3 =>
          match parseVal fu r3 with
          | none => none
          | some (v, r4) =>
            match skipWs r4 with
            | ',' :: r5 => parseMembers fu r5 (acc ++ [(String.mk k, v)])
            | '\x7d' :: r5 => some (J.jobj (acc ++ [(String.mk k, v)]), r5)
            | _ => none
        | _ => none
    | _ => none

/-- Items of a JSON array after at least one item is required. -/
def parseItems : Nat → List Char → List J → Option (J × List Char)
  | 0, _, _ => none
  | fu + 1, s0, acc =>
    match parseVal fu s0 with
    | none => none
    | some (v, r) =>
      match skipWs r with
      | ',' :: r2 => parseItems fu r2 (acc ++ [v])
      | ']' :: r2 => some (J.jarr (acc ++ [v]), r2)
      | _ => none

end

/-- Model of `json.loads`: parse one value, require only whitespace after
it.  The fuel is generous: each recursive call consumes input, so a linear
budget cannot be exhausted on any input that parses. -/
def jsonLoads (s : String) : Option J :=
  match parseVal (4 * (s.data.length + 4)) s.data with
  | none => none
  | some (v, rest) => if (skipWs rest).isEmpty then some v else none


/-! ## The code-fence stripper and `parse_review_comments` -/

/-- Match attempt of `re.sub(r"^```json\s*|\s*```$", ...)` at one scan
position, returning the match length.  The first alternative is anchored
(`^`, no MULTILINE) so it can fire only at position 0, with a greedy
trailing `\s*`.  In the second alternative the greedy `\s*` must reach the
literal backquotes (shorter whitespace runs leave a whitespace character
where a backquote is required), and `$` matches at the end of the string or
just before a final newline.  `\s` is modelled as ASCII whitespace. -/
def matchFenceAt (pos : Nat) (s : List Char) : Option Nat :=
  if pos = 0 && ['`', '`', '`', 'j', 's', 'o', 'n'].isPrefixOf s then
    some (7 + ((s.drop 7).takeWhile isPySpace).length)
  else
    let w := (s.takeWhile isPySpace).length
    let r := s.drop w
    if r = ['`', '`', '`'] || r = ['`', '`', '`', '\n'] then some (w + 3) else none

/-- Left-to-right scan of `re.sub` with empty replacement.  Every match is
at least three characters long, so fuel equal to the input length
suffices. -/
def fenceSubAux : Nat → Nat → List Char → List Char
  | 0, _, s => s
  | _, _, [] => []
  | fu + 1, pos, c :: rest =>
    match matchFenceAt pos (c :: rest) with
    | some n => fenceSubAux fu (pos + n) ((c :: rest).drop n)
    | none => c :: fenceSubAux fu (pos + 1) rest

/-- Model of `re.sub(r"^```json\s*|\s*```$", "", s, flags=re.DOTALL)`. -/
def fenceStrip (s : String) : String :=
  String.mk (fenceSubAux s.data.length 0 s.data)

/-- Model of `dict.get` for a JSON-decoded object: Python keeps the last
occurrence of a duplicated key. -/
def pyDictGet (kvs : List (String × J)) (k : String) : Option J :=
  match kvs with
  | [] => none
  | (k2, v) :: rest =>
    match pyDictGet rest k with
    | some v2 => some v2
    | none => if k2 = k then some v else none

/-- Model of `parse_review_comments` (identical in both script variants):
strip the input, remove an optional ```json code fence, parse as JSON and
read the `violations` key with default `[]`.  A `json.JSONDecodeError` is
caught (first `except`) and any other exception — e.g. the
`AttributeError` from `.get` when the decoded value is not a dict — is
caught by the second `except`; both return the empty list. -/
def parse_review_comments (review : String) : J :=
  let clean := fenceStrip (pyStrip review)
  match jsonLoads clean with
  | none => J.jarr []
  | some (J.jobj kvs) =>
    match pyDictGet kvs "violations" with
    | some v => v
    | none => J.jarr []
  | some _ => J.jarr []

/-! ## Python value semantics used by the posting loop -/

/-- Zero test for a float lexeme: it has digits and every digit is `0`
(`NaN`/`Infinity` have no digits and are non-zero). -/
def floatLexIsZero (lex : String) : Bool :=
  lex.data.any Char.isDigit && lex.data.all (fun c => !c.isDigit || c = '0')

/-- Python truthiness of a JSON-decoded value. -/
def pyTruthy : J → Bool
  | J.jnull => false
  | J.jbool b => b
  | J.jint n => n != 0
  | J.jfloat lex => !floatLexIsZero lex
  | J.jstr s => !s.data.isEmpty
  | J.jarr xs => !xs.isEmpty
  | J.jobj kvs => !kvs.isEmpty

/-- Signed exponent digits of a float lexeme. -/
def expSignedVal (r : List Char) : Int :=
  match r with
  | '-' :: d => -(natOfDigits (takeDigits d) : Int)
  | '+' :: d => (natOfDigits (takeDigits d) : Int)
  | d => (natOfDigits (takeDigits d) : Int)

/-- Model of `int()` on a float, computed by truncating the decimal lexeme toward
zero.  (Binary floating-point rounding of huge literals is not modelled;
`int()` of `NaN`/`Infinity` raises in Python and yields `none` here.) -/
def pyIntOfFloatLex (lex : String) : Option Int :=
  let cs := lex.data
  let (neg, cs1) := match cs with | '-' :: r => (true, r) | _ => (false, cs)
  let ip := takeDigits cs1
  if ip.isEmpty then none
  else
    let cs2 := cs1.drop ip.length
    let (fp, cs3) :=
      match cs2 with
      | '.' :: r => (takeDigits r, r.drop (takeDigits r).length)
      | _ => ([], cs2)
    let e : Int :=
      match cs3 with
      | 'e' :: r => expSignedVal r
      | 'E' :: r => expSignedVal r
      | _ => 0
    let e2 : Int := e - (fp.length : Int)
    let digits : Nat := natOfDigits (ip ++ fp)
    let m : Nat := if 0 ≤ e2 then digits * 10 ^ e2.toNat else digits / 10 ^ (-e2).toNat
    some (if neg then -(m : Int) else (m : Int))

/-- Model of `int()` on a string: strip whitespace, optional sign, decimal digits.
(Underscore digit grouping and non-ASCII digits are not modelled.) -/
def pyIntOfStr (s : String) : Option Int :=
  let t := (pyStrip s).data
  let (neg, t1) :=
    match t with
    | '-' :: r => (true, r)
    | '+' :: r => (false, r)
    | _ => (false, t)
  if t1.isEmpty || !t1.all Char.isDigit then none
  else some (if neg then -(natOfDigits t1 : Int) else (natOfDigits t1 : Int))

/-- Model of `int(x)` on a JSON-decoded value; `none` models the raised
`TypeError`/`ValueError`. -/
def pyInt : J → Option Int
  | J.jnull => none
  | J.jbool b => some (if b then 1 else 0)
  | J.jint n => some n
  | J.jfloat lex => pyIntOfFloatLex lex
  | J.jstr s => pyIntOfStr s
  | J.jarr _ => none
  | J.jobj _ => none

mutual

/-- Python `repr` of a JSON-decoded value, as rendered into the f-string
comment body.  Strings are shown between single quotes without modelling
the Python escaping rules or quote selection; a float lexeme stands for
its own repr. -/
def pyReprJ : J → String
  | J.jnull => "None"
  | J.jbool b => if b then "True" else "False"
  | J.jint n => toString n
  | J.jfloat lex => lex
  | J.jstr s => "\x27" ++ s ++ "\x27"
  | J.jarr xs => "[" ++ String.intercalate ", " (pyReprList xs) ++ "]"
  | J.jobj kvs => "\x7b" ++ String.intercalate ", " (pyReprPairs kvs) ++ "\x7d"

/-- Pointwise `repr` of the elements of a list. -/
def pyReprList : List J → List String
  | [] => []
  | x :: xs => pyReprJ x :: pyReprList xs

/-- Pointwise `repr` of the members of a dict. -/
def pyReprPairs : List (String × J) → List String
  | [] => []
  | (k, v) :: rest => ("\x27" ++ k ++ "\x27: " ++ pyReprJ v) :: pyReprPairs rest

end

/-- Python `str()` as used by f-string interpolation: the identity on
strings, `repr` otherwise. -/
def pyStr : J → String
  | J.jstr s => s
  | v => pyReprJ v

/-- Model of `comment["k"]`: `none` models the `KeyError` raised for a
missing key and the `TypeError` raised when the comment is not a dict. -/
def pyIndex (c : J) (k : String) : Option J :=
  match c with
  | J.jobj kvs => pyDictGet kvs k
  | _ => none

/-- Model of `wrap_suggestion_code`: empty output on falsy input,
otherwise a `suggestion`-fenced block. -/
def wrap_suggestion_code (code : J) : String :=
  if pyTruthy code then "```suggestion\n" ++ pyStr code ++ "\n```" else ""

/-! ## The posting loop of `post_review_comments` -/

/-- One review-comment creation request issued to the hosting API (the
`side` argument is the constant `RIGHT` in both call sites of this
script variant). -/
inductive PostAction where
  | rangeComment (body path : String) (line startLine : Int)
  | lineComment (body path : String) (line : Int)
deriving Repr, DecidableEq

/-- The body of the per-comment loop of `post_review_comments`
(`scripts/ai-code-reviewer/review.py`): compute
`start_line = int(comment["startLine"]) if comment["startLine"] else None`,
`line = int(comment["line"])`, the f-string body, and issue a range
comment when `start_line` is truthy (non-`None` and non-zero), else a
single-line comment.  `none` models any exception inside the `try` body
(missing key, non-dict comment, failed `int()`, non-string `path` failing
the PyGithub type assertion); such a comment is logged and skipped. -/
def postOne (c : J) : Option PostAction :=
  match pyIndex c "startLine" with
  | none => none
  | some slv =>
    let sl? : Option (Option Int) :=
      if pyTruthy slv then
        match pyInt slv with
        | none => none
        | some k => some (some k)
      else some none
    match sl? with
    | none => none
    | some start_line =>
      match pyIndex c "line" with
      | none => none
      | some lv =>
        match pyInt lv with
        | none => none
        | some line =>
          match pyIndex c "guideline", pyIndex c "explanation", pyIndex c "suggestionCode" with
          | some g, some ex, some sc =>
            let body := pyStr g ++ "\n" ++ pyStr ex ++ "\n" ++ wrap_suggestion_code sc
            match pyIndex c "file" with
            | some (J.jstr path) =>
              match start_line with
              | some k =>
                if k != 0 then some (PostAction.rangeComment body path line k)
                else some (PostAction.lineComment body path line)
              | none => some (PostAction.lineComment body path line)
            | _ => none
          | _, _, _ => none

/-- The `for comment in comments` loop: a failing item (`postOne` raising,
or the API call failing, modelled by the `apiOk` oracle) is caught by the
per-item `except`, logged, and skipped; iteration continues. -/
def postLoop (apiOk : J → Bool) : List J → List PostAction
  | [] => []
  | c :: cs =>
    match postOne c with
    | none => postLoop apiOk cs
    | some a => if apiOk c then a :: postLoop apiOk cs else postLoop apiOk cs

/-- External environment of `post_review_comments`: whether `GITHUB_TOKEN`
is truthy, the resolved PR identity (`None` when `get_pr_info` fails), the
reachability of the hosting API for the enclosing `try`, and the commit
list of the PR. -/
structure GhEnv where
  tokenSet : Bool
  prInfo : Option (String × Int)
  ghReachable : Bool
  commits : List String
deriving Repr, DecidableEq

/-- Model of `post_review_comments`: the returned flag and the sequence of
creation requests issued.  Mirrors the source order: token check, PR-info
check, client construction (enclosing `try`), empty-comments early return,
commit-list check, then the per-comment loop and `return True`. -/
def post_review_comments (env : GhEnv) (apiOk : J → Bool) (comments : List J) :
    Bool × List PostAction :=
  if !env.tokenSet then (false, [])
  else
    match env.prInfo with
    | none => (false, [])
    | some _ =>
      if !env.ghReachable then (false, [])
      else if comments.isEmpty then (true, [])
      else if env.commits.isEmpty then (false, [])
      else (true, postLoop apiOk comments)


/-! ## Line classification predicates (the vocabulary of the spec) -/

/-- A line counted on the old side of a hunk: a deletion (`-`, excluding
the `---` file marker) or a context line. -/
def isOldSide (l : String) : Bool :=
  (strStarts l "-" && !strStarts l "---") || strStarts l " "

/-- A line counted on the new side of a hunk: an addition (`+`, excluding
the `+++` file marker) or a context line. -/
def isNewSide (l : String) : Bool :=
  (strStarts l "+" && !strStarts l "+++") || strStarts l " "

/-- A changed or context line (one that uses a line counter). -/
def isContent (l : String) : Bool :=
  isOldSide l || isNewSide l

/-- A line on which the hunk-header regex fires. -/
def isMatchedHeaderB (l : String) : Bool :=
  strStarts l "@@" && (parseHunkHeader l).isSome

/-- Balancedness of a line list: every content line is preceded by a
matched hunk header. -/
def guarded : List String → Bool
  | [] => true
  | l :: ls => if isMatchedHeaderB l then true else !isContent l && guarded ls

/-- Number of old-side lines in a list. -/
def countOld (ls : List String) : Nat :=
  ls.countP (fun l => isOldSide l)

/-- Number of new-side lines in a list. -/
def countNew (ls : List String) : Nat :=
  ls.countP (fun l => isNewSide l)

/-! ## Elementary prefix lemmas -/

theorem isPrefixOf_trans {a b c : List Char} (h1 : a.isPrefixOf b = true)
    (h2 : b.isPrefixOf c = true) : a.isPrefixOf c = true := by
  induction a generalizing b c with
  | nil => simp
  | cons x xs ih =>
    cases b with
    | nil => simp at h1
    | cons y ys =>
      cases c with
      | nil => simp at h2
      | cons z zs =>
        rw [List.isPrefixOf_cons₂] at h1 h2 ⊢
        simp only [Bool.and_eq_true, beq_iff_eq] at h1 h2 ⊢
        exact ⟨h1.1.trans h2.1, ih h1.2 h2.2⟩

theorem strStarts_head_eq (l p : String) (c : Char) (hp : strStarts l p = true)
    (hc : p.data.head? = some c) : l.data.head? = some c := by
  unfold strStarts at hp
  cases hpd : p.data with
  | nil => rw [hpd] at hc; simp at hc
  | cons a as =>
    rw [hpd] at hc hp
    simp only [List.head?_cons, Option.some.injEq] at hc
    cases hld : l.data with
    | nil => rw [hld] at hp; simp at hp
    | cons b bs =>
      rw [hld] at hp
      rw [List.isPrefixOf_cons₂] at hp
      simp only [Bool.and_eq_true, beq_iff_eq] at hp
      simp [hp.1 ▸ hc]

theorem strStarts_false_of_head (l q : String) (c d : Char)
    (hl : l.data.head? = some c) (hq : q.data.head? = some d) (hne : c ≠ d) :
    strStarts l q = false := by
  cases hs : strStarts l q
  · rfl
  · have h2 := strStarts_head_eq l q d hs hq
    rw [hl] at h2
    simp only [Option.some.injEq] at h2
    exact absurd h2 hne

theorem strStarts_of_sub (l p q : String) (hpq : p.data.isPrefixOf q.data = true)
    (h : strStarts l q = true) : strStarts l p = true := by
  unfold strStarts at h ⊢
  exact isPrefixOf_trans hpq h

/-! ## Which branch of the loop fires for each kind of line -/

theorem lineKind_dg (l : String) (h : strStarts l "diff --git" = true) :
    lineKind l = LineKind.fileBoundary := by
  simp [lineKind, h]

theorem lineKind_fileMark (l : String) (h : strStarts l "+++ b/" = true) :
    lineKind l = LineKind.fileMark := by
  have hl : l.data.head? = some '+' := strStarts_head_eq l "+++ b/" '+' h rfl
  have hdg : strStarts l "diff --git" = false :=
    strStarts_false_of_head l "diff --git" '+' 'd' hl rfl (by decide)
  simp [lineKind, hdg, h]

theorem lineKind_hdr (l : String) (h : strStarts l "@@" = true) :
    lineKind l = LineKind.hunkHdr (parseHunkHeader l) := by
  have hl : l.data.head? = some '@' := strStarts_head_eq l "@@" '@' h rfl
  have hdg : strStarts l "diff --git" = false :=
    strStarts_false_of_head l "diff --git" '@' 'd' hl rfl (by decide)
  have hmk : strStarts l "+++ b/" = false :=
    strStarts_false_of_head l "+++ b/" '@' '+' hl rfl (by decide)
  simp [lineKind, hdg, hmk, h]

theorem lineKind_del (l : String) (h1 : strStarts l "-" = true)
    (h2 : strStarts l "---" = false) : lineKind l = LineKind.delLine := by
  have hl : l.data.head? = some '-' := strStarts_head_eq l "-" '-' h1 rfl
  have hdg : strStarts l "diff --git" = false :=
    strStarts_false_of_head l "diff --git" '-' 'd' hl rfl (by decide)
  have hmk : strStarts l "+++ b/" = false :=
    strStarts_false_of_head l "+++ b/" '-' '+' hl rfl (by decide)
  have hhd : strStarts l "@@" = false :=
    strStarts_false_of_head l "@@" '-' '@' hl rfl (by decide)
  simp [lineKind, hdg, hmk, hhd, h1, h2]

theorem lineKind_add (l : String) (h1 : strStarts l "+" = true)
    (h2 : strStarts l "+++" = false) : lineKind l = LineKind.addLine := by
  have hl : l.data.head? = some '+' := strStarts_head_eq l "+" '+' h1 rfl
  have hdg : strStarts l "diff --git" = false :=
    strStarts_false_of_head l "diff --git" '+' 'd' hl rfl (by decide)
  have hmk : strStarts l "+++ b/" = false := by
    cases hm : strStarts l "+++ b/"
    · rfl
    · have := strStarts_of_sub l "+++" "+++ b/" (by decide) hm
      rw [this] at h2
      exact h2
  have hhd : strStarts l "@@" = false :=
    strStarts_false_of_head l "@@" '+' '@' hl rfl (by decide)
  have hdel : strStarts l "-" = false :=
    strStarts_false_of_head l "-" '+' '-' hl rfl (by decide)
  simp [lineKind, hdg, hmk, hhd, hdel, h1, h2]

theorem lineKind_ctx (l : String) (h : strStarts l " " = true) :
    lineKind l = LineKind.ctxLine := by
  have hl : l.data.head? = some ' ' := strStarts_head_eq l " " ' ' h rfl
  have hdg : strStarts l "diff --git" = false :=
    strStarts_false_of_head l "diff --git" ' ' 'd' hl rfl (by decide)
  have hmk : strStarts l "+++ b/" = false :=
    strStarts_false_of_head l "+++ b/" ' ' '+' hl rfl (by decide)
  have hhd : strStarts l "@@" = false :=
    strStarts_false_of_head l "@@" ' ' '@' hl rfl (by decide)
  have hdel : strStarts l "-" = false :=
    strStarts_false_of_head l "-" ' ' '-' hl rfl (by decide)
  have hadd : strStarts l "+" = false :=
    strStarts_false_of_head l "+" ' ' '+' hl rfl (by decide)
  simp [lineKind, hdg, hmk, hhd, hdel, hadd, h]

/-! ## Inversion of the branch classification -/

theorem lineKind_dg_inv (l : String) (h : lineKind l = LineKind.fileBoundary) :
    strStarts l "diff --git" = true := by
  unfold lineKind at h
  split_ifs at h
  simp_all

theorem lineKind_fileMark_inv (l : String) (h : lineKind l = LineKind.fileMark) :
    strStarts l "+++ b/" = true := by
  unfold lineKind at h
  split_ifs at h
  simp_all

theorem lineKind_hdr_inv (l : String) (v : Option (Nat × Nat))
    (h : lineKind l = LineKind.hunkHdr v) :
    strStarts l "@@" = true ∧ parseHunkHeader l = v := by
  unfold lineKind at h
  split_ifs at h
  simp_all

theorem lineKind_del_inv (l : String) (h : lineKind l = LineKind.delLine) :
    strStarts l "-" = true ∧ strStarts l "---" = false := by
  unfold lineKind at h
  split_ifs at h
  simp_all

theorem lineKind_add_inv (l : String) (h : lineKind l = LineKind.addLine) :
    strStarts l "+" = true ∧ strStarts l "+++" = false := by
  unfold lineKind at h
  split_ifs at h
  simp_all

theorem lineKind_ctx_inv (l : String) (h : lineKind l = LineKind.ctxLine) :
    strStarts l " " = true := by
  unfold lineKind at h
  split_ifs at h
  simp_all

theorem lineKind_other_inv (l : String) (h : lineKind l = LineKind.otherLine) :
    (strStarts l "-" && !strStarts l "---") = false ∧
    (strStarts l "+" && !strStarts l "+++") = false ∧
    strStarts l " " = false := by
  unfold lineKind at h
  split_ifs at h
  simp_all

/-! ## Old-side / new-side status of each line kind -/

theorem sides_of_dg (l : String) (h : lineKind l = LineKind.fileBoundary) :
    isOldSide l = false ∧ isNewSide l = false := by
  have h1 := lineKind_dg_inv l h
  have hl : l.data.head? = some 'd' := strStarts_head_eq l "diff --git" 'd' h1 rfl
  have hdel : strStarts l "-" = false :=
    strStarts_false_of_head l "-" 'd' '-' hl rfl (by decide)
  have hadd : strStarts l "+" = false :=
    strStarts_false_of_head l "+" 'd' '+' hl rfl (by decide)
  have hsp : strStarts l " " = false :=
    strStarts_false_of_head l " " 'd' ' ' hl rfl (by decide)
  simp [isOldSide, isNewSide, hdel, hadd, hsp]

theorem sides_of_fileMark (l : String) (h : lineKind l = LineKind.fileMark) :
    isOldSide l = false ∧ isNewSide l = false := by
  have h1 := lineKind_fileMark_inv l h
  have hl : l.data.head? = some '+' := strStarts_head_eq l "+++ b/" '+' h1 rfl
  have hdel : strStarts l "-" = false :=
    strStarts_false_of_head l "-" '+' '-' hl rfl (by decide)
  have hsp : strStarts l " " = false :=
    strStarts_false_of_head l " " '+' ' ' hl rfl (by decide)
  have hppp : strStarts l "+++" = true := strStarts_of_sub l "+++" "+++ b/" (by decide) h1
  simp [isOldSide, isNewSide, hdel, hsp, hppp]

theorem sides_of_hdr (l : String) (v : Option (Nat × Nat))
    (h : lineKind l = LineKind.hunkHdr v) :
    isOldSide l = false ∧ isNewSide l = false := by
  have h1 := (lineKind_hdr_inv l v h).1
  have hl : l.data.head? = some '@' := strStarts_head_eq l "@@" '@' h1 rfl
  have hdel : strStarts l "-" = false :=
    strStarts_false_of_head l "-" '@' '-' hl rfl (by decide)
  have hadd : strStarts l "+" = false :=
    strStarts_false_of_head l "+" '@' '+' hl rfl (by decide)
  have hsp : strStarts l " " = false :=
    strStarts_false_of_head l " " '@' ' ' hl rfl (by decide)
  simp [isOldSide, isNewSide, hdel, hadd, hsp]

theorem sides_of_del (l : String) (h : lineKind l = LineKind.delLine) :
    isOldSide l = true ∧ isNewSide l = false := by
  obtain ⟨h1, h2⟩ := lineKind_del_inv l h
  have hl : l.data.head? = some '-' := strStarts_head_eq l "-" '-' h1 rfl
  have hadd : strStarts l "+" = false :=
    strStarts_false_of_head l "+" '-' '+' hl rfl (by decide)
  have hsp : strStarts l " " = false :=
    strStarts_false_of_head l " " '-' ' ' hl rfl (by decide)
  simp [isOldSide, isNewSide, h1, h2, hadd, hsp]

theorem sides_of_add (l : String) (h : lineKind l = LineKind.addLine) :
    isOldSide l = false ∧ isNewSide l = true := by
  obtain ⟨h1, h2⟩ := lineKind_add_inv l h
  have hl : l.data.head? = some '+' := strStarts_head_eq l "+" '+' h1 rfl
  have hdel : strStarts l "-" = false :=
    strStarts_false_of_head l "-" '+' '-' hl rfl (by decide)
  have hsp : strStarts l " " = false :=
    strStarts_false_of_head l " " '+' ' ' hl rfl (by decide)
  simp [isOldSide, isNewSide, h1, h2, hdel, hsp]

theorem sides_of_ctx (l : String) (h : lineKind l = LineKind.ctxLine) :
    isOldSide l = true ∧ isNewSide l = true := by
  have h1 := lineKind_ctx_inv l h
  simp [isOldSide, isNewSide, h1]

theorem sides_of_other (l : String) (h : lineKind l = LineKind.otherLine) :
    isOldSide l = false ∧ isNewSide l = false := by
  obtain ⟨h1, h2, h3⟩ := lineKind_other_inv l h
  simp [isOldSide, isNewSide, h1, h2, h3]

/-! ## Step equations of the loop body -/

theorem summStep_boundary (st : DiffState) (l : String)
    (h : lineKind l = LineKind.fileBoundary) :
    summStep st l =
      some { st with results := flushResults st, old_lines := [], new_lines := [] } := by
  unfold summStep
  rw [h]

theorem summStep_fileMark (st : DiffState) (l : String)
    (h : lineKind l = LineKind.fileMark) :
    summStep st l = some { st with file_path := some (pyStrip (strDrop l 6)) } := by
  unfold summStep
  rw [h]

theorem summStep_hdrNone (st : DiffState) (l : String)
    (h : lineKind l = LineKind.hunkHdr none) :
    summStep st l = some st := by
  unfold summStep
  rw [h]

theorem summStep_hdrSome (st : DiffState) (l : String) (o n : Nat)
    (h : lineKind l = LineKind.hunkHdr (some (o, n))) :
    summStep st l = some { st with old_num := some o, new_num := some n } := by
  unfold summStep
  rw [h]

theorem summStep_del (st : DiffState) (l : String) (o : Nat)
    (h : lineKind l = LineKind.delLine) (ho : st.old_num = some o) :
    summStep st l =
      some { st with old_lines := st.old_lines ++ [fmtEntry '-' o (strDrop l 1)],
                     old_num := some (o + 1) } := by
  unfold summStep
  rw [h, ho]

theorem summStep_add (st : DiffState) (l : String) (n : Nat)
    (h : lineKind l = LineKind.addLine) (hn : st.new_num = some n) :
    summStep st l =
      some { st with new_lines := st.new_lines ++ [fmtEntry '+' n (strDrop l 1)],
                     new_num := some (n + 1) } := by
  unfold summStep
  rw [h, hn]

theorem summStep_ctx (st : DiffState) (l : String) (o n : Nat)
    (h : lineKind l = LineKind.ctxLine) (ho : st.old_num = some o)
    (hn : st.new_num = some n) :
    summStep st l =
      some { st with old_lines := st.old_lines ++ [fmtEntry ' ' o (strDrop l 1)],
                     new_lines := st.new_lines ++ [fmtEntry ' ' n (strDrop l 1)],
                     old_num := some (o + 1), new_num := some (n + 1) } := by
  unfold summStep
  rw [h, ho, hn]

theorem summStep_other (st : DiffState) (l : String)
    (h : lineKind l = LineKind.otherLine) :
    summStep st l = some st := by
  unfold summStep
  rw [h]

/-! ## Processing never fails once both counters are set -/

theorem processLines_cons (l : String) (ls : List String) (st : DiffState) :
    processLines (l :: ls) st =
      (match summStep st l with
       | none => none
       | some st2 => processLines ls st2) := rfl

theorem processLines_append (a b : List String) (st : DiffState) :
    processLines (a ++ b) st =
      (match processLines a st with
       | none => none
       | some st1 => processLines b st1) := by
  induction a generalizing st with
  | nil => rfl
  | cons l rest ih =>
    rw [List.cons_append, processLines_cons, processLines_cons]
    cases summStep st l with
    | none => rfl
    | some st2 => exact ih st2

theorem summStep_total (st : DiffState) (l : String)
    (ho : st.old_num.isSome = true) (hn : st.new_num.isSome = true) :
    ∃ st2, summStep st l = some st2 ∧ st2.old_num.isSome = true ∧
      st2.new_num.isSome = true := by
  obtain ⟨o, ho2⟩ := Option.isSome_iff_exists.1 ho
  obtain ⟨n, hn2⟩ := Option.isSome_iff_exists.1 hn
  cases hk : lineKind l with
  | fileBoundary => exact ⟨_, summStep_boundary st l hk, ho, hn⟩
  | fileMark => exact ⟨_, summStep_fileMark st l hk, ho, hn⟩
  | hunkHdr v =>
    cases v with
    | none => exact ⟨_, summStep_hdrNone st l hk, ho, hn⟩
    | some p => exact ⟨_, summStep_hdrSome st l p.1 p.2 hk, rfl, rfl⟩
  | delLine => exact ⟨_, summStep_del st l o hk ho2, rfl, hn⟩
  | addLine => exact ⟨_, summStep_add st l n hk hn2, ho, rfl⟩
  | ctxLine => exact ⟨_, summStep_ctx st l o n hk ho2 hn2, rfl, rfl⟩
  | otherLine => exact ⟨_, summStep_other st l hk, ho, hn⟩

theorem processLines_total (ls : List String) (st : DiffState)
    (ho : st.old_num.isSome = true) (hn : st.new_num.isSome = true) :
    ∃ st2, processLines ls st = some st2 := by
  induction ls generalizing st with
  | nil => exact ⟨st, rfl⟩
  | cons l rest ih =>
    obtain ⟨st2, hs, ho2, hn2⟩ := summStep_total st l ho hn
    obtain ⟨st3, hp⟩ := ih st2 ho2 hn2
    exact ⟨st3, by rw [processLines_cons, hs]; exact hp⟩

/-! ## Processing never fails on a balanced diff -/

theorem summStep_nonContent (st : DiffState) (l : String)
    (hc : isContent l = false) (hm : isMatchedHeaderB l = false) :
    ∃ st2, summStep st l = some st2 ∧ st2.old_num = st.old_num ∧
      st2.new_num = st.new_num := by
  cases hk : lineKind l with
  | fileBoundary => exact ⟨_, summStep_boundary st l hk, rfl, rfl⟩
  | fileMark => exact ⟨_, summStep_fileMark st l hk, rfl, rfl⟩
  | hunkHdr v =>
    cases v with
    | none => exact ⟨_, summStep_hdrNone st l hk, rfl, rfl⟩
    | some p =>
      obtain ⟨h1, h2⟩ := lineKind_hdr_inv l (some p) hk
      rw [isMatchedHeaderB, h1, h2] at hm
      simp at hm
  | delLine =>
    obtain ⟨h1, h2⟩ := sides_of_del l hk
    rw [isContent, h1] at hc
    simp at hc
  | addLine =>
    obtain ⟨h1, h2⟩ := sides_of_add l hk
    rw [isContent, h1, h2] at hc
    simp at hc
  | ctxLine =>
    obtain ⟨h1, h2⟩ := sides_of_ctx l hk
    rw [isContent, h1] at hc
    simp at hc
  | otherLine => exact ⟨_, summStep_other st l hk, rfl, rfl⟩

theorem processLines_guarded (ls : List String) (st : DiffState)
    (hg : guarded ls = true) :
    ∃ st2, processLines ls st = some st2 := by
  induction ls generalizing st with
  | nil => exact ⟨st, rfl⟩
  | cons l rest ih =>
    rw [guarded] at hg
    by_cases hm : isMatchedHeaderB l = true
    · rw [isMatchedHeaderB, Bool.and_eq_true] at hm
      obtain ⟨v, hv⟩ := Option.isSome_iff_exists.1 hm.2
      have hk := lineKind_hdr l hm.1
      rw [hv] at hk
      obtain ⟨st3, hp⟩ :=
        processLines_total rest { st with old_num := some v.1, new_num := some v.2 } rfl rfl
      refine ⟨st3, ?_⟩
      rw [processLines_cons, summStep_hdrSome st l v.1 v.2 hk]
      exact hp
    · rw [if_neg hm, Bool.and_eq_true, Bool.not_eq_true'] at hg
      obtain ⟨st2, hs, _, _⟩ :=
        summStep_nonContent st l hg.1 (Bool.not_eq_true _ ▸ hm)
      obtain ⟨st3, hp⟩ := ih st2 hg.2
      exact ⟨st3, by rw [processLines_cons, hs]; exact hp⟩

/-! ## Counter arithmetic inside one hunk -/

theorem processLines_counts (b : List String) (st : DiffState) (o n : Nat)
    (hh : b.all (fun l => !isMatchedHeaderB l) = true)
    (ho : st.old_num = some o) (hn : st.new_num = some n) :
    ∃ st2, processLines b st = some st2 ∧
      st2.old_num = some (o + countOld b) ∧ st2.new_num = some (n + countNew b) := by
  induction b generalizing st o n with
  | nil =>
    refine ⟨st, rfl, ?_, ?_⟩
    · simpa [countOld] using ho
    · simpa [countNew] using hn
  | cons l rest ih =>
    rw [List.all_cons, Bool.and_eq_true] at hh
    have hcO : countOld (l :: rest) = countOld rest + (if isOldSide l then 1 else 0) := by
      simp [countOld, List.countP_cons]
    have hcN : countNew (l :: rest) = countNew rest + (if isNewSide l then 1 else 0) := by
      simp [countNew, List.countP_cons]
    cases hk : lineKind l with
    | fileBoundary =>
      obtain ⟨hso, hsn⟩ := sides_of_dg l hk
      obtain ⟨st3, hp, hono, honn⟩ :=
        ih { st with results := flushResults st, old_lines := [], new_lines := [] } o n
          hh.2 ho hn
      refine ⟨st3, ?_, ?_, ?_⟩
      · rw [processLines_cons, summStep_boundary st l hk]; exact hp
      · rw [hcO, hso]; simpa using hono
      · rw [hcN, hsn]; simpa using honn
    | fileMark =>
      obtain ⟨hso, hsn⟩ := sides_of_fileMark l hk
      obtain ⟨st3, hp, hono, honn⟩ :=
        ih { st with file_path := some (pyStrip (strDrop l 6)) } o n hh.2 ho hn
      refine ⟨st3, ?_, ?_, ?_⟩
      · rw [processLines_cons, summStep_fileMark st l hk]; exact hp
      · rw [hcO, hso]; simpa using hono
      · rw [hcN, hsn]; simpa using honn
    | hunkHdr v =>
      cases v with
      | none =>
        obtain ⟨hso, hsn⟩ := sides_of_hdr l none hk
        obtain ⟨st3, hp, hono, honn⟩ := ih st o n hh.2 ho hn
        refine ⟨st3, ?_, ?_, ?_⟩
        · rw [processLines_cons, summStep_hdrNone st l hk]; exact hp
        · rw [hcO, hso]; simpa using hono
        · rw [hcN, hsn]; simpa using honn
      | some p =>
        exfalso
        obtain ⟨h1, h2⟩ := lineKind_hdr_inv l (some p) hk
        have := hh.1
        rw [isMatchedHeaderB, h1, h2] at this
        simp at this
    | delLine =>
      obtain ⟨hso, hsn⟩ := sides_of_del l hk
      obtain ⟨st3, hp, hono, honn⟩ :=
        ih { st with old_lines := st.old_lines ++ [fmtEntry '-' o (strDrop l 1)],
                     old_num := some (o + 1) } (o + 1) n hh.2 rfl hn
      have hcO1 : countOld (l :: rest) = countOld rest + 1 := by
        simp [countOld, List.countP_cons, hso]
      refine ⟨st3, ?_, ?_, ?_⟩
      · rw [processLines_cons, summStep_del st l o hk ho]; exact hp
      · rw [hono, hcO1, Option.some.injEq]
        omega
      · rw [hcN, hsn]; simpa using honn
    | addLine =>
      obtain ⟨hso, hsn⟩ := sides_of_add l hk
      obtain ⟨st3, hp, hono, honn⟩ :=
        ih { st with new_lines := st.new_lines ++ [fmtEntry '+' n (strDrop l 1)],
                     new_num := some (n + 1) } o (n + 1) hh.2 ho rfl
      have hcN1 : countNew (l :: rest) = countNew rest + 1 := by
        simp [countNew, List.countP_cons, hsn]
      refine ⟨st3, ?_, ?_, ?_⟩
      · rw [processLines_cons, summStep_add st l n hk hn]; exact hp
      · rw [hcO, hso]; simpa using hono
      · rw [honn, hcN1, Option.some.injEq]
        omega
    | ctxLine =>
      obtain ⟨hso, hsn⟩ := sides_of_ctx l hk
      obtain ⟨st3, hp, hono, honn⟩ :=
        ih { st with old_lines := st.old_lines ++ [fmtEntry ' ' o (strDrop l 1)],
                     new_lines := st.new_lines ++ [fmtEntry ' ' n (strDrop l 1)],
                     old_num := some (o + 1), new_num := some (n + 1) }
          (o + 1) (n + 1) hh.2 rfl rfl
      have hcO1 : countOld (l :: rest) = countOld rest + 1 := by
        simp [countOld, List.countP_cons, hso]
      have hcN1 : countNew (l :: rest) = countNew rest + 1 := by
        simp [countNew, List.countP_cons, hsn]
      refine ⟨st3, ?_, ?_, ?_⟩
      · rw [processLines_cons, summStep_ctx st l o n hk ho hn]; exact hp
      · rw [hono, hcO1, Option.some.injEq]
        omega
      · rw [honn, hcN1, Option.some.injEq]
        omega
    | otherLine =>
      obtain ⟨hso, hsn⟩ := sides_of_other l hk
      obtain ⟨st3, hp, hono, honn⟩ := ih st o n hh.2 ho hn
      refine ⟨st3, ?_, ?_, ?_⟩
      · rw [processLines_cons, summStep_other st l hk]; exact hp
      · rw [hcO, hso]; simpa using hono
      · rw [hcN, hsn]; simpa using honn

/-- Claim C1: a matched hunk-header line resets `old_num`/`new_num` to the
two captured integers, and within the hunk (no further matched header in
`b1`) every old-side line is emitted with number `oldStart` plus its
zero-based position in the old-side sequence, and likewise on the new
side.  The line `l` is an arbitrary content line whose old-side position
is `countOld b1` and new-side position is `countNew b1`. -/
theorem hunk_line_numbers (st : DiffState) (hdr l : String) (b1 : List String) (o n : Nat)
    (hhdr : strStarts hdr "@@" = true)
    (hparse : parseHunkHeader hdr = some (o, n))
    (hb1 : b1.all (fun x => !isMatchedHeaderB x) = true)
    (hcl : isContent l = true) :
    summStep st hdr = some { st with old_num := some o, new_num := some n } ∧
    ∃ st1, processLines (hdr :: b1) st = some st1 ∧
      st1.old_num = some (o + countOld b1) ∧
      st1.new_num = some (n + countNew b1) ∧
      ∃ st2, summStep st1 l = some st2 ∧
        (isOldSide l = true →
          st2.old_lines = st1.old_lines ++
            [fmtEntry (if strStarts l "-" then '-' else ' ') (o + countOld b1) (strDrop l 1)]) ∧
        (isNewSide l = true →
          st2.new_lines = st1.new_lines ++
            [fmtEntry (if strStarts l "+" then '+' else ' ') (n + countNew b1) (strDrop l 1)]) := by
  have hk := lineKind_hdr hdr hhdr
  rw [hparse] at hk
  have hstep := summStep_hdrSome st hdr o n hk
  refine ⟨hstep, ?_⟩
  obtain ⟨st1, hp, h1o, h1n⟩ :=
    processLines_counts b1 { st with old_num := some o, new_num := some n } o n hb1 rfl rfl
  refine ⟨st1, ?_, h1o, h1n, ?_⟩
  · rw [processLines_cons, hstep]; exact hp
  · cases hkl : lineKind l with
    | fileBoundary =>
      obtain ⟨hso, hsn⟩ := sides_of_dg l hkl
      rw [isContent, hso, hsn] at hcl
      simp at hcl
    | fileMark =>
      obtain ⟨hso, hsn⟩ := sides_of_fileMark l hkl
      rw [isContent, hso, hsn] at hcl
      simp at hcl
    | hunkHdr v =>
      obtain ⟨hso, hsn⟩ := sides_of_hdr l v hkl
      rw [isContent, hso, hsn] at hcl
      simp at hcl
    | otherLine =>
      obtain ⟨hso, hsn⟩ := sides_of_other l hkl
      rw [isContent, hso, hsn] at hcl
      simp at hcl
    | delLine =>
      obtain ⟨hso, hsn⟩ := sides_of_del l hkl
      obtain ⟨hm1, _⟩ := lineKind_del_inv l hkl
      refine ⟨_, summStep_del st1 l _ hkl h1o, ?_, ?_⟩
      · intro _
        rw [hm1]
        rfl
      · intro hfalse
        rw [hsn] at hfalse
        cases hfalse
    | addLine =>
      obtain ⟨hso, hsn⟩ := sides_of_add l hkl
      obtain ⟨hm1, _⟩ := lineKind_add_inv l hkl
      refine ⟨_, summStep_add st1 l _ hkl h1n, ?_, ?_⟩
      · intro hfalse
        rw [hso] at hfalse
        cases hfalse
      · intro _
        rw [hm1]
        rfl
    | ctxLine =>
      have hsp := lineKind_ctx_inv l hkl
      have hl : l.data.head? = some ' ' := strStarts_head_eq l " " ' ' hsp rfl
      have hdel : strStarts l "-" = false :=
        strStarts_false_of_head l "-" ' ' '-' hl rfl (by decide)
      have hadd : strStarts l "+" = false :=
        strStarts_false_of_head l "+" ' ' '+' hl rfl (by decide)
      refine ⟨_, summStep_ctx st1 l _ _ hkl h1o h1n, ?_, ?_⟩
      · intro _
        rw [hdel]
        rfl
      · intro _
        rw [hadd]
        rfl

/-- Witness for claim C1 at a concrete hunk: header `@@ -3,2 +7,2 @@`, one
context line, then the deletion line `-gone`, whose old-side position is 1,
so it is emitted with old line number 4. -/
theorem hunk_line_numbers_witness :
    summStep initState "@@ -3,2 +7,2 @@" =
      some { initState with old_num := some 3, new_num := some 7 } ∧
    ∃ st1, processLines ["@@ -3,2 +7,2 @@", " ctx"] initState = some st1 ∧
      st1.old_num = some (3 + countOld [" ctx"]) ∧
      st1.new_num = some (7 + countNew [" ctx"]) ∧
      ∃ st2, summStep st1 "-gone" = some st2 ∧
        (isOldSide "-gone" = true →
          st2.old_lines = st1.old_lines ++
            [fmtEntry (if strStarts "-gone" "-" then '-' else ' ')
              (3 + countOld [" ctx"]) (strDrop "-gone" 1)]) ∧
        (isNewSide "-gone" = true →
          st2.new_lines = st1.new_lines ++
            [fmtEntry (if strStarts "-gone" "+" then '+' else ' ')
              (7 + countNew [" ctx"]) (strDrop "-gone" 1)]) :=
  hunk_line_numbers initState "@@ -3,2 +7,2 @@" "-gone" [" ctx"] 3 7
    (by decide) (by decide) (by decide) (by decide)

/-- Claim C2 (amended): a `diff --git` line flushes the accumulated file
block into the results and resets the two line buffers — but not the file
path, which keeps its previous value — and a flush appends nothing when
the file path is unset (or empty). -/
theorem dg_flush_and_reset (st : DiffState) (l : String)
    (h : strStarts l "diff --git" = true) :
    summStep st l =
      some ⟨flushResults st, st.file_path, [], [], st.old_num, st.new_num⟩ ∧
    (truthyStr st.file_path = false → flushResults st = st.results) := by
  constructor
  · rw [summStep_boundary st l (lineKind_dg l h)]
  · intro ht
    unfold flushResults
    cases hf : st.file_path with
    | none => rfl
    | some fp =>
      rw [hf] at ht
      simp only [truthyStr] at ht
      simp at ht
      simp [ht]

/-- Witness for claim C2 at a concrete state and line. -/
theorem dg_flush_and_reset_witness :
    summStep ⟨["x"], none, ["a"], ["b"], some 4, some 9⟩ "diff --git a/F b/F" =
      some ⟨flushResults ⟨["x"], none, ["a"], ["b"], some 4, some 9⟩, none, [], [],
        some 4, some 9⟩ ∧
    (truthyStr (none : Option String) = false →
      flushResults ⟨["x"], none, ["a"], ["b"], some 4, some 9⟩ = ["x"]) :=
  dg_flush_and_reset ⟨["x"], none, ["a"], ["b"], some 4, some 9⟩ "diff --git a/F b/F"
    (by decide)

/-- Counterexample to claim C2 as stated: a `diff --git` line does not
reset the file path — the previous path `A.java` survives the boundary
instead of becoming unset. -/
theorem dg_does_not_reset_path :
    Option.map DiffState.file_path
        (summStep ⟨[], some "A.java", [], [], some 5, some 6⟩ "diff --git a/B.java b/B.java")
      = some (some "A.java") ∧
    Option.map DiffState.file_path
        (summStep ⟨[], some "A.java", [], [], some 5, some 6⟩ "diff --git a/B.java b/B.java")
      ≠ some none := by decide

/-- Claim C5 (amended): a deletion line appends exactly the sign `-`,
then `oldNum` right-aligned to width 4, then a bar with one space on each
side, then the content, to the old buffer, and increments `old_num`; an
addition line does the analogous thing on the new side. -/
theorem changed_line_entry (st : DiffState) (l : String) (o n : Nat) :
    (strStarts l "-" = true → strStarts l "---" = false → st.old_num = some o →
      summStep st l = some { st with
        old_lines := st.old_lines ++ ["-" ++ pad4 o ++ " | " ++ strDrop l 1],
        old_num := some (o + 1) }) ∧
    (strStarts l "+" = true → strStarts l "+++" = false → st.new_num = some n →
      summStep st l = some { st with
        new_lines := st.new_lines ++ ["+" ++ pad4 n ++ " | " ++ strDrop l 1],
        new_num := some (n + 1) }) := by
  constructor
  · intro h1 h2 ho
    rw [summStep_del st l o (lineKind_del l h1 h2) ho]
    rfl
  · intro h1 h2 hn
    rw [summStep_add st l n (lineKind_add l h1 h2) hn]
    rfl

/-- Witness for claim C5 at a concrete deletion line. -/
theorem changed_line_entry_witness :
    summStep ⟨[], none, [], [], some 12, some 1⟩ "-gone" =
      some { (⟨[], none, [], [], some 12, some 1⟩ : DiffState) with
        old_lines := ([] : List String) ++ ["-" ++ pad4 12 ++ " | " ++ strDrop "-gone" 1],
        old_num := some (12 + 1) } :=
  (changed_line_entry ⟨[], none, [], [], some 12, some 1⟩ "-gone" 12 1).1
    (by decide) (by decide) rfl

/-- Counterexample to claim C5 as stated: the entry written for a deletion
line has a space between the padded number and the bar, so it differs from
the claimed shape `-<padded number>| <content>`. -/
theorem changed_line_entry_cex :
    Option.map DiffState.old_lines (summStep ⟨[], none, [], [], some 1, some 1⟩ "-x")
      = some ["-   1 | x"] ∧
    ("-   1 | x" : String) ≠ "-" ++ pad4 1 ++ "| " ++ strDrop "-x" 1 := by decide

/-! ## Context-only diffs -/

/-- No changed (`+`/`-`) lines in the list. -/
def noChangedLines (ls : List String) : Bool :=
  ls.all (fun l =>
    !(strStarts l "-" && !strStarts l "---") && !(strStarts l "+" && !strStarts l "+++"))

/-- Every line on which the hunk-header regex fires declares equal old and
new start lines. -/
def equalStartHdrs (ls : List String) : Bool :=
  ls.all (fun l =>
    match parseHunkHeader l with
    | some (o, n) => o == n
    | none => true)

theorem summStep_ctx_noneL (st : DiffState) (l : String)
    (h : lineKind l = LineKind.ctxLine) (ho : st.old_num = none) :
    summStep st l = none := by
  unfold summStep
  rw [h, ho]

theorem ctx_only_inv (ls : List String) (st st' : DiffState)
    (hctx : noChangedLines ls = true) (heq : equalStartHdrs ls = true)
    (hb : st.old_lines = st.new_lines) (hnum : st.old_num = st.new_num)
    (hp : processLines ls st = some st') :
    st'.old_lines = st'.new_lines ∧ st'.old_num = st'.new_num := by
  induction ls generalizing st with
  | nil =>
    simp only [processLines, Option.some.injEq] at hp
    subst hp
    exact ⟨hb, hnum⟩
  | cons l rest ih =>
    rw [noChangedLines, List.all_cons, Bool.and_eq_true] at hctx
    rw [equalStartHdrs, List.all_cons, Bool.and_eq_true] at heq
    rw [processLines_cons] at hp
    cases hk : lineKind l with
    | fileBoundary =>
      rw [summStep_boundary st l hk] at hp
      exact ih { st with results := flushResults st, old_lines := [], new_lines := [] }
        hctx.2 heq.2 rfl hnum hp
    | fileMark =>
      rw [summStep_fileMark st l hk] at hp
      exact ih { st with file_path := some (pyStrip (strDrop l 6)) }
        hctx.2 heq.2 hb hnum hp
    | hunkHdr v =>
      cases v with
      | none =>
        rw [summStep_hdrNone st l hk] at hp
        exact ih st hctx.2 heq.2 hb hnum hp
      | some p =>
        obtain ⟨hh1, hh2⟩ := lineKind_hdr_inv l (some p) hk
        have heq1 := heq.1
        rw [hh2] at heq1
        simp only [beq_iff_eq] at heq1
        rw [summStep_hdrSome st l p.1 p.2 hk] at hp
        exact ih { st with old_num := some p.1, new_num := some p.2 }
          hctx.2 heq.2 hb (by show some p.1 = some p.2; rw [heq1]) hp
    | delLine =>
      exfalso
      obtain ⟨h1, h2⟩ := lineKind_del_inv l hk
      have := hctx.1
      rw [h1, h2] at this
      simp at this
    | addLine =>
      exfalso
      obtain ⟨h1, h2⟩ := lineKind_add_inv l hk
      have := hctx.1
      rw [h1, h2] at this
      simp at this
    | ctxLine =>
      cases ho : st.old_num with
      | none =>
        rw [summStep_ctx_noneL st l hk ho] at hp
        cases hp
      | some o =>
        have hn2 : st.new_num = some o := by rw [← hnum, ho]
        rw [summStep_ctx st l o o hk ho hn2] at hp
        exact ih { st with old_lines := st.old_lines ++ [fmtEntry ' ' o (strDrop l 1)],
                           new_lines := st.new_lines ++ [fmtEntry ' ' o (strDrop l 1)],
                           old_num := some (o + 1), new_num := some (o + 1) }
          hctx.2 heq.2 (by show st.old_lines ++ _ = st.new_lines ++ _; rw [hb]) rfl hp
    | otherLine =>
      rw [summStep_other st l hk] at hp
      exact ih st hctx.2 heq.2 hb hnum hp

/-- Claim C6 (amended): a balanced diff containing only context lines (no
`+`/`-` changed lines) in which every matched hunk header declares equal
old and new start lines yields identical old and new buffers, with the
two counters equal throughout. -/
theorem ctx_only_buffers_equal (s : String)
    (hctx : noChangedLines (pySplitlines s) = true)
    (heq : equalStartHdrs (pySplitlines s) = true)
    (hg : guarded (pySplitlines s) = true) :
    ∃ st', processLines (pySplitlines s) initState = some st' ∧
      st'.old_lines = st'.new_lines ∧ st'.old_num = st'.new_num := by
  obtain ⟨st', hp⟩ := processLines_guarded (pySplitlines s) initState hg
  exact ⟨st', hp, ctx_only_inv _ initState st' hctx heq rfl rfl hp⟩

/-- Witness for claim C6 on a concrete two-context-line diff. -/
theorem ctx_only_buffers_equal_witness :
    ∃ st', processLines (pySplitlines "@@ -4,2 +4,2 @@\n a\n b") initState = some st' ∧
      st'.old_lines = st'.new_lines ∧ st'.old_num = st'.new_num :=
  ctx_only_buffers_equal "@@ -4,2 +4,2 @@\n a\n b" (by decide) (by decide) (by decide)

/-- Counterexample to claim C6 as stated: a diff containing only context
lines but whose hunk header declares different old and new starts
(`@@ -1 +5 @@`) produces different old and new buffers. -/
theorem ctx_only_buffers_cex :
    ∃ st', processLines (pySplitlines "@@ -1 +5 @@\n x") initState = some st' ∧
      st'.old_lines ≠ st'.new_lines := by
  refine ⟨⟨[], none, ["    1 | x"], ["    5 | x"], some 2, some 6⟩, ?_, ?_⟩
  · rfl
  · decide

/-! ## Frame facts: which steps can touch `results` and `file_path` -/

theorem summStep_ctx_noneR (st : DiffState) (l : String)
    (h : lineKind l = LineKind.ctxLine) (hn : st.new_num = none) :
    summStep st l = none := by
  unfold summStep
  rw [h, hn]
  cases st.old_num <;> rfl

theorem summStep_frame (st : DiffState) (l : String) (st2 : DiffState)
    (h : summStep st l = some st2) :
    (lineKind l ≠ LineKind.fileBoundary → st2.results = st.results) ∧
    (lineKind l ≠ LineKind.fileMark → st2.file_path = st.file_path) := by
  cases hk : lineKind l with
  | fileBoundary =>
    rw [summStep_boundary st l hk] at h
    injection h with h2
    subst h2
    exact ⟨fun hne => absurd rfl hne, fun _ => rfl⟩
  | fileMark =>
    rw [summStep_fileMark st l hk] at h
    injection h with h2
    subst h2
    exact ⟨fun _ => rfl, fun hne => absurd rfl hne⟩
  | hunkHdr v =>
    cases v with
    | none =>
      rw [summStep_hdrNone st l hk] at h
      injection h with h2
      subst h2
      exact ⟨fun _ => rfl, fun _ => rfl⟩
    | some p =>
      rw [summStep_hdrSome st l p.1 p.2 hk] at h
      injection h with h2
      subst h2
      exact ⟨fun _ => rfl, fun _ => rfl⟩
  | delLine =>
    cases ho : st.old_num with
    | none =>
      unfold summStep at h
      rw [hk, ho] at h
      cases h
    | some o =>
      rw [summStep_del st l o hk ho] at h
      injection h with h2
      subst h2
      exact ⟨fun _ => rfl, fun _ => rfl⟩
  | addLine =>
    cases hn : st.new_num with
    | none =>
      unfold summStep at h
      rw [hk, hn] at h
      cases h
    | some n =>
      rw [summStep_add st l n hk hn] at h
      injection h with h2
      subst h2
      exact ⟨fun _ => rfl, fun _ => rfl⟩
  | ctxLine =>
    cases ho : st.old_num with
    | none =>
      rw [summStep_ctx_noneL st l hk ho] at h
      cases h
    | some o =>
      cases hn : st.new_num with
      | none =>
        rw [summStep_ctx_noneR st l hk hn] at h
        cases h
      | some n =>
        rw [summStep_ctx st l o n hk ho hn] at h
        injection h with h2
        subst h2
        exact ⟨fun _ => rfl, fun _ => rfl⟩
  | otherLine =>
    rw [summStep_other st l hk] at h
    injection h with h2
    subst h2
    exact ⟨fun _ => rfl, fun _ => rfl⟩

/-! ## Diffs that never set a file path produce an empty transcript -/

theorem processLines_noPath (ls : List String) (st st' : DiffState)
    (hnp : ls.all (fun l => !strStarts l "+++ b/") = true)
    (hpath : st.file_path = none) (hres : st.results = [])
    (hp : processLines ls st = some st') :
    st'.file_path = none ∧ st'.results = [] := by
  induction ls generalizing st with
  | nil =>
    simp only [processLines, Option.some.injEq] at hp
    subst hp
    exact ⟨hpath, hres⟩
  | cons l rest ih =>
    rw [List.all_cons, Bool.and_eq_true] at hnp
    rw [processLines_cons] at hp
    cases hs : summStep st l with
    | none =>
      rw [hs] at hp
      cases hp
    | some st2 =>
      rw [hs] at hp
      have hfr := summStep_frame st l st2 hs
      have hmark : lineKind l ≠ LineKind.fileMark := by
        intro hk
        have h1 := hnp.1
        rw [lineKind_fileMark_inv l hk] at h1
        simp at h1
      have hpath2 : st2.file_path = none := by rw [hfr.2 hmark, hpath]
      have hres2 : st2.results = [] := by
        by_cases hb : lineKind l = LineKind.fileBoundary
        · rw [summStep_boundary st l hb] at hs
          injection hs with h3
          rw [← h3]
          show flushResults st = []
          unfold flushResults
          rw [hpath]
          exact hres
        · rw [hfr.1 hb, hres]
      exact ih st2 hnp.2 hpath2 hres2 hp

/-- Claim C8 (amended): a balanced diff — every changed or context line
preceded by a matched hunk header — is processed without error; if it
moreover never sets a file path (no `+++ b/` line; in particular the empty
diff) the transcript is empty; and a diff whose first changed line is not
preceded by a matched header, such as `-x`, fails on the unset counter. -/
theorem balanced_diff_totality (s : String)
    (hg : guarded (pySplitlines s) = true) :
    (∃ out, summarize_multi_file_diff s = some out) ∧
    ((pySplitlines s).all (fun l => !strStarts l "+++ b/") = true →
      summarize_multi_file_diff s = some "") ∧
    summarize_multi_file_diff "" = some "" ∧
    summarize_multi_file_diff "-x" = none := by
  obtain ⟨st', hp⟩ := processLines_guarded (pySplitlines s) initState hg
  refine ⟨⟨String.intercalate "\n" (flushResults st'), ?_⟩, ?_, rfl, rfl⟩
  · unfold summarize_multi_file_diff
    rw [hp]
  · intro hnp
    obtain ⟨hpath, hres⟩ := processLines_noPath _ initState st' hnp rfl rfl hp
    unfold summarize_multi_file_diff
    rw [hp]
    have hfl : flushResults st' = [] := by
      unfold flushResults
      rw [hpath]
      exact hres
    change some (String.intercalate "\n" (flushResults st')) = some ""
    rw [hfl]
    rfl

/-- Witness for claim C8: a diff with a file boundary and a hunk but no
`+++ b/` marker is processed without error and yields the empty
transcript. -/
theorem balanced_diff_totality_witness :
    (∃ out, summarize_multi_file_diff "diff --git a/A b/A\n@@ -1 +1 @@\n+x" = some out) ∧
    ((pySplitlines "diff --git a/A b/A\n@@ -1 +1 @@\n+x").all
        (fun l => !strStarts l "+++ b/") = true →
      summarize_multi_file_diff "diff --git a/A b/A\n@@ -1 +1 @@\n+x" = some "") ∧
    summarize_multi_file_diff "" = some "" ∧
    summarize_multi_file_diff "-x" = none :=
  balanced_diff_totality "diff --git a/A b/A\n@@ -1 +1 @@\n+x" (by decide)

/-- Counterexample to claim C8 as stated: a diff with zero hunks is not
always an empty transcript — a lone `+++ b/X.java` marker line (zero
hunks, no content lines) yields `filePath: X.java\n`. -/
theorem zero_hunk_nonempty_transcript :
    summarize_multi_file_diff "+++ b/X.java" = some "filePath: X.java\n" ∧
    (some "filePath: X.java\n" : Option String) ≠ some "" := by decide

/-! ## Counting `filePath:` headers in the transcript -/

/-- Number of `filePath: ` header lines among the result lines. -/
def hdrCount (rs : List String) : Nat :=
  rs.countP (fun r => strStarts r "filePath: ")

/-- No buffered hunk entry ever looks like a `filePath: ` header (every
entry starts with `-`, `+` or a space). -/
def bufferClean (st : DiffState) : Prop :=
  (∀ e ∈ st.old_lines, strStarts e "filePath: " = false) ∧
  (∀ e ∈ st.new_lines, strStarts e "filePath: " = false)

theorem isPrefixOf_append_self (a b : List Char) : a.isPrefixOf (a ++ b) = true := by
  induction a with
  | nil => simp
  | cons x xs ih => simp [List.isPrefixOf_cons₂, ih]

theorem strStarts_prefix_append (p t : String) : strStarts (p ++ t) p = true := by
  unfold strStarts
  rw [String.data_append]
  exact isPrefixOf_append_self p.data t.data

theorem fmtEntry_not_hdr (sign : Char) (k : Nat) (c : String) (h : sign ≠ 'f') :
    strStarts (fmtEntry sign k c) "filePath: " = false := by
  have hd : (fmtEntry sign k c).data =
      sign :: (((pad4 k).data ++ " | ".data) ++ c.data) := by
    simp [fmtEntry, String.data_append]
  unfold strStarts
  rw [hd]
  rw [show ("filePath: " : String).data = 'f' :: "ilePath: ".data from rfl]
  rw [List.isPrefixOf_cons₂]
  have hfs : ('f' == sign) = false := by
    cases hfs : ('f' == sign) with
    | false => rfl
    | true =>
      exfalso
      simp only [beq_iff_eq] at hfs
      exact h hfs.symm
  rw [hfs]
  rfl

theorem summStep_clean (st : DiffState) (l : String) (st2 : DiffState)
    (h : summStep st l = some st2) (hc : bufferClean st) : bufferClean st2 := by
  cases hk : lineKind l with
  | fileBoundary =>
    rw [summStep_boundary st l hk] at h
    injection h with h2
    rw [← h2]
    exact ⟨fun e he => absurd he (List.not_mem_nil e), fun e he => absurd he (List.not_mem_nil e)⟩
  | fileMark =>
    rw [summStep_fileMark st l hk] at h
    injection h with h2
    rw [← h2]
    exact hc
  | hunkHdr v =>
    cases v with
    | none =>
      rw [summStep_hdrNone st l hk] at h
      injection h with h2
      rw [← h2]
      exact hc
    | some p =>
      rw [summStep_hdrSome st l p.1 p.2 hk] at h
      injection h with h2
      rw [← h2]
      exact hc
  | delLine =>
    cases ho : st.old_num with
    | none =>
      unfold summStep at h
      rw [hk, ho] at h
      cases h
    | some o =>
      rw [summStep_del st l o hk ho] at h
      injection h with h2
      rw [← h2]
      refine ⟨?_, hc.2⟩
      intro e he
      rcases List.mem_append.1 he with h3 | h3
      · exact hc.1 e h3
      · rw [List.mem_singleton.1 h3]
        exact fmtEntry_not_hdr '-' o (strDrop l 1) (by decide)
  | addLine =>
    cases hn : st.new_num with
    | none =>
      unfold summStep at h
      rw [hk, hn] at h
      cases h
    | some n =>
      rw [summStep_add st l n hk hn] at h
      injection h with h2
      rw [← h2]
      refine ⟨hc.1, ?_⟩
      intro e he
      rcases List.mem_append.1 he with h3 | h3
      · exact hc.2 e h3
      · rw [List.mem_singleton.1 h3]
        exact fmtEntry_not_hdr '+' n (strDrop l 1) (by decide)
  | ctxLine =>
    cases ho : st.old_num with
    | none =>
      rw [summStep_ctx_noneL st l hk ho] at h
      cases h
    | some o =>
      cases hn : st.new_num with
      | none =>
        rw [summStep_ctx_noneR st l hk hn] at h
        cases h
      | some n =>
        rw [summStep_ctx st l o n hk ho hn] at h
        injection h with h2
        rw [← h2]
        constructor
        · intro e he
          rcases List.mem_append.1 he with h3 | h3
          · exact hc.1 e h3
          · rw [List.mem_singleton.1 h3]
            exact fmtEntry_not_hdr ' ' o (strDrop l 1) (by decide)
        · intro e he
          rcases List.mem_append.1 he with h3 | h3
          · exact hc.2 e h3
          · rw [List.mem_singleton.1 h3]
            exact fmtEntry_not_hdr ' ' n (strDrop l 1) (by decide)
  | otherLine =>
    rw [summStep_other st l hk] at h
    injection h with h2
    rw [← h2]
    exact hc

theorem hdrCount_flush (st : DiffState) (hclean : bufferClean st) :
    hdrCount (flushResults st) =
      hdrCount st.results + (if truthyStr st.file_path then 1 else 0) := by
  have hsec : ∀ (xs : List String) (hdr : String), strStarts hdr "filePath: " = false →
      (∀ e ∈ xs, strStarts e "filePath: " = false) →
      (if xs.isEmpty then ([] : List String) else hdr :: xs).countP
        (fun r => strStarts r "filePath: ") = 0 := by
    intro xs hdr hh hxs
    by_cases hx : xs.isEmpty
    · simp [hx]
    · rw [if_neg hx, List.countP_cons]
      simp only [hh, if_false]
      simpa using List.countP_eq_zero.2 (fun a ha => by simp [hxs a ha])
  cases hf : st.file_path with
  | none =>
    unfold flushResults truthyStr
    rw [hf]
    simp
  | some fp =>
    by_cases he : fp.data.isEmpty
    · simp [flushResults, truthyStr, hf, he, hdrCount]
    · have h1 : strStarts ("filePath: " ++ fp) "filePath: " = true :=
        strStarts_prefix_append "filePath: " fp
      have h2 := hsec st.old_lines "old_hunk (before change):" (by decide) hclean.1
      have h3 := hsec st.new_lines "\nnew_hunk (after change):" (by decide) hclean.2
      have h4 : strStarts "" "filePath: " = false := rfl
      simp only [flushResults, truthyStr, hf, if_neg he, hdrCount]
      rw [List.countP_append, List.countP_append, List.countP_append, List.countP_append]
      rw [h2, h3]
      simp [List.countP_cons, h1, h4, he]

/-- The file path after processing a block of lines: the last `+++ b/`
marker wins, otherwise the incoming path persists. -/
def pathAfter (b : List String) (p : Option String) : Option String :=
  b.foldl (fun acc l => if strStarts l "+++ b/" then some (pyStrip (strDrop l 6)) else acc) p

theorem processLines_cons_some (l : String) (ls : List String) (st st2 : DiffState)
    (h : summStep st l = some st2) :
    processLines (l :: ls) st = processLines ls st2 := by
  rw [processLines_cons, h]

theorem processLines_noDg (b : List String) (st st' : DiffState)
    (hnd : b.all (fun l => !strStarts l "diff --git") = true)
    (hp : processLines b st = some st') :
    st'.results = st.results ∧ st'.file_path = pathAfter b st.file_path ∧
      (bufferClean st → bufferClean st') := by
  induction b generalizing st with
  | nil =>
    simp only [processLines, Option.some.injEq] at hp
    subst hp
    exact ⟨rfl, rfl, id⟩
  | cons l rest ih =>
    rw [List.all_cons, Bool.and_eq_true] at hnd
    rw [processLines_cons] at hp
    cases hs : summStep st l with
    | none =>
      rw [hs] at hp
      cases hp
    | some st2 =>
      rw [hs] at hp
      have hfr := summStep_frame st l st2 hs
      have hnb : lineKind l ≠ LineKind.fileBoundary := by
        intro hk
        have hx := hnd.1
        rw [lineKind_dg_inv l hk] at hx
        simp at hx
      obtain ⟨ihr, ihp, ihc⟩ := ih st2 hnd.2 hp
      refine ⟨?_, ?_, ?_⟩
      · rw [ihr, hfr.1 hnb]
      · rw [ihp]
        show pathAfter rest st2.file_path =
          pathAfter rest
            (if strStarts l "+++ b/" then some (pyStrip (strDrop l 6)) else st.file_path)
        congr 1
        by_cases hm : strStarts l "+++ b/" = true
        · rw [summStep_fileMark st l (lineKind_fileMark l hm)] at hs
          injection hs with h2
          rw [← h2]
          simp [hm]
        · have hnm : lineKind l ≠ LineKind.fileMark := by
            intro hk
            exact hm (lineKind_fileMark_inv l hk)
          rw [hfr.2 hnm]
          simp [hm]
      · intro hc
        exact ihc (summStep_clean st l st2 hs hc)

/-- Claim C7 (amended): for a two-file diff — two `diff --git` boundary
lines, no further boundary inside either block — in which each block
leaves a truthy file path (its `+++ b/` marker is present and non-empty)
and every content line is under a matched header, the flushes happen
exactly at the two boundaries and at end of input, and the final
transcript contains exactly two `filePath: ` header lines, one per file
touched.  (The flush at the first boundary emits nothing since no path is
set yet; a block that never sets a path, such as a deleted file whose
marker is `+++ /dev/null`, would make its flush emit no header at all.) -/
theorem two_file_header_count (dg1 dg2 : String) (b1 b2 : List String)
    (h1 : strStarts dg1 "diff --git" = true) (h2 : strStarts dg2 "diff --git" = true)
    (hb1 : b1.all (fun l => !strStarts l "diff --git") = true)
    (hb2 : b2.all (fun l => !strStarts l "diff --git") = true)
    (hp1 : truthyStr (pathAfter b1 none) = true)
    (hp2 : truthyStr (pathAfter b2 (pathAfter b1 none)) = true)
    (hg : guarded (dg1 :: b1 ++ dg2 :: b2) = true) :
    ∃ st', processLines (dg1 :: b1 ++ dg2 :: b2) initState = some st' ∧
      hdrCount (flushResults st') = 2 := by
  obtain ⟨st', hp⟩ := processLines_guarded _ initState hg
  refine ⟨st', hp, ?_⟩
  have hs1 : summStep initState dg1 = some initState := by
    rw [summStep_boundary initState dg1 (lineKind_dg dg1 h1)]
    rfl
  rw [show dg1 :: b1 ++ dg2 :: b2 = dg1 :: (b1 ++ dg2 :: b2) from rfl] at hp
  rw [processLines_cons_some dg1 (b1 ++ dg2 :: b2) initState initState hs1] at hp
  rw [processLines_append] at hp
  cases hq : processLines b1 initState with
  | none =>
    rw [hq] at hp
    cases hp
  | some stB =>
    rw [hq] at hp
    change processLines (dg2 :: b2) stB = some st' at hp
    obtain ⟨hBr, hBp, hBc⟩ := processLines_noDg b1 initState stB hb1 hq
    have hBr0 : stB.results = [] := hBr
    have hBp0 : stB.file_path = pathAfter b1 none := hBp
    have hBclean : bufferClean stB :=
      hBc ⟨fun e he => absurd he (List.not_mem_nil e),
        fun e he => absurd he (List.not_mem_nil e)⟩
    have hs2 : summStep stB dg2 =
        some { stB with results := flushResults stB, old_lines := [], new_lines := [] } :=
      summStep_boundary stB dg2 (lineKind_dg dg2 h2)
    rw [processLines_cons_some dg2 b2 stB _ hs2] at hp
    obtain ⟨hCr, hCp, hCc⟩ := processLines_noDg b2 _ st' hb2 hp
    have hCclean : bufferClean st' :=
      hCc ⟨fun e he => absurd he (List.not_mem_nil e),
        fun e he => absurd he (List.not_mem_nil e)⟩
    have hcntB : hdrCount (flushResults stB) = 1 := by
      rw [hdrCount_flush stB hBclean, hBp0, hp1, hBr0]
      rfl
    have hpath' : truthyStr st'.file_path = true := by
      rw [hCp]
      show truthyStr (pathAfter b2 stB.file_path) = true
      rw [hBp0]
      exact hp2
    rw [hdrCount_flush st' hCclean, hpath', hCr]
    show hdrCount (flushResults stB) + (if true then 1 else 0) = 2
    rw [hcntB]
    rfl

/-- Witness for claim C7 on a concrete two-file diff. -/
theorem two_file_header_count_witness :
    ∃ st', processLines
        ("diff --git a/A.java b/A.java" :: ["+++ b/A.java", "@@ -1 +1 @@", "+x"] ++
          "diff --git a/B.java b/B.java" :: ["+++ b/B.java", "@@ -2 +2 @@", "-y"])
        initState = some st' ∧
      hdrCount (flushResults st') = 2 :=
  two_file_header_count "diff --git a/A.java b/A.java" "diff --git a/B.java b/B.java"
    ["+++ b/A.java", "@@ -1 +1 @@", "+x"] ["+++ b/B.java", "@@ -2 +2 @@", "-y"]
    (by decide) (by decide) (by decide) (by decide) (by decide) (by decide) (by decide)

/-- Counterexample to claim C7 as stated: a genuine two-file diff whose
first file is deleted carries `+++ /dev/null` instead of a `+++ b/`
marker, so the file path is never set for that block, the flush at the
second boundary emits nothing (discarding the deleted file entirely), and
the transcript contains one `filePath: ` header for two files touched —
not "exactly as many headers as files touched". -/
theorem two_file_one_header_cex :
    summarize_multi_file_diff "diff --git a/A.java b/A.java\n--- a/A.java\n+++ /dev/null\n@@ -1 +0,0 @@\n-x\ndiff --git a/B.java b/B.java\n+++ b/B.java\n@@ -1 +1 @@\n+y"
      = some "filePath: B.java\n\nnew_hunk (after change):\n+   1 | y\n" ∧
    processLines (pySplitlines "diff --git a/A.java b/A.java\n--- a/A.java\n+++ /dev/null\n@@ -1 +0,0 @@\n-x\ndiff --git a/B.java b/B.java\n+++ b/B.java\n@@ -1 +1 @@\n+y")
        initState
      = some ⟨[], some "B.java", [], ["+   1 | y"], some 1, some 2⟩ ∧
    hdrCount (flushResults ⟨[], some "B.java", [], ["+   1 | y"], some 1, some 2⟩) = 1 ∧
    (1 : Nat) ≠ 2 := by
  refine ⟨by decide, by decide, by decide, by decide⟩

/-- Claim C3: `parse_review_comments` strips an optional ```json code
fence from the stripped input, parses the remainder as JSON and returns
the value of the `violations` key unchanged, defaulting to the empty list
when the key is absent; a JSON parse failure, or a decoded value that is
not a dict (whose `.get` raises), yields the empty list — extraction is a
total function and never propagates a failure, as on `"not json"`. -/
theorem parse_review_total (s : String) :
    (jsonLoads (fenceStrip (pyStrip s)) = none → parse_review_comments s = J.jarr []) ∧
    (∀ kvs v, jsonLoads (fenceStrip (pyStrip s)) = some (J.jobj kvs) →
      pyDictGet kvs "violations" = some v → parse_review_comments s = v) ∧
    (∀ kvs, jsonLoads (fenceStrip (pyStrip s)) = some (J.jobj kvs) →
      pyDictGet kvs "violations" = none → parse_review_comments s = J.jarr []) ∧
    (∀ v, jsonLoads (fenceStrip (pyStrip s)) = some v → (∀ kvs, v ≠ J.jobj kvs) →
      parse_review_comments s = J.jarr []) ∧
    parse_review_comments "not json" = J.jarr [] := by
  refine ⟨?_, ?_, ?_, ?_, rfl⟩
  · intro h
    simp only [parse_review_comments]
    rw [h]
  · intro kvs v h1 h2
    simp only [parse_review_comments]
    rw [h1]
    show (match pyDictGet kvs "violations" with
          | some v2 => v2
          | none => J.jarr []) = v
    rw [h2]
  · intro kvs h1 h2
    simp only [parse_review_comments]
    rw [h1]
    show (match pyDictGet kvs "violations" with
          | some v2 => v2
          | none => J.jarr []) = J.jarr []
    rw [h2]
  · intro v h1 h2
    simp only [parse_review_comments]
    rw [h1]
    cases v with
    | jobj kvs => exact absurd rfl (h2 kvs)
    | jnull => rfl
    | jbool b => rfl
    | jint n => rfl
    | jfloat lex => rfl
    | jstr s2 => rfl
    | jarr xs => rfl

/-- Witness for claim C3: a plain JSON object whose `violations` value is
returned unchanged. -/
theorem parse_review_total_witness :
    parse_review_comments "\x7b\"violations\":[3]\x7d" = J.jarr [J.jint 3] :=
  (parse_review_total "\x7b\"violations\":[3]\x7d").2.1
    [("violations", J.jarr [J.jint 3])] (J.jarr [J.jint 3]) rfl rfl

/-- Claim C4: on the unfenced one-violation input the extractor returns
exactly one record, whose `line` is the integer 10 and whose `startLine`
is JSON null (Python `None`); on the fenced empty-violations input it
returns the empty sequence. -/
theorem parse_review_examples :
    parse_review_comments "\x7b\"violations\":[\x7b\"file\":\"A.java\",\"line\":10,\"startLine\":null,\"guideline\":\"G1\",\"explanation\":\"E1\",\"suggestionCode\":\"x\"\x7d]\x7d"
      = J.jarr [J.jobj [("file", J.jstr "A.java"), ("line", J.jint 10),
          ("startLine", J.jnull), ("guideline", J.jstr "G1"), ("explanation", J.jstr "E1"),
          ("suggestionCode", J.jstr "x")]] ∧
    pyDictGet [("file", J.jstr "A.java"), ("line", J.jint 10), ("startLine", J.jnull),
        ("guideline", J.jstr "G1"), ("explanation", J.jstr "E1"),
        ("suggestionCode", J.jstr "x")] "line" = some (J.jint 10) ∧
    pyDictGet [("file", J.jstr "A.java"), ("line", J.jint 10), ("startLine", J.jnull),
        ("guideline", J.jstr "G1"), ("explanation", J.jstr "E1"),
        ("suggestionCode", J.jstr "x")] "startLine" = some J.jnull ∧
    parse_review_comments "```json\n\x7b\"violations\":[]\x7d\n```" = J.jarr [] :=
  ⟨rfl, rfl, rfl, rfl⟩

/-- Claim C9 (amended): a record whose `startLine` key is present with the
value null is still posted, as a single-line comment anchored at `line`
alone; a non-zero integer `startLine` produces a multi-line range comment;
but a record from which the `startLine` key is entirely missing raises
`KeyError` inside the loop body, so no comment is created for it. -/
theorem startLine_null_single_line (f g e sc : String) (n m : Int) (hm : m ≠ 0) :
    postOne (J.jobj [("file", J.jstr f), ("line", J.jint n), ("startLine", J.jnull),
        ("guideline", J.jstr g), ("explanation", J.jstr e), ("suggestionCode", J.jstr sc)])
      = some (PostAction.lineComment
          (g ++ "\n" ++ e ++ "\n" ++ wrap_suggestion_code (J.jstr sc)) f n) ∧
    postOne (J.jobj [("file", J.jstr f), ("line", J.jint n), ("startLine", J.jint m),
        ("guideline", J.jstr g), ("explanation", J.jstr e), ("suggestionCode", J.jstr sc)])
      = some (PostAction.rangeComment
          (g ++ "\n" ++ e ++ "\n" ++ wrap_suggestion_code (J.jstr sc)) f n m) ∧
    postOne (J.jobj [("file", J.jstr f), ("line", J.jint n),
        ("guideline", J.jstr g), ("explanation", J.jstr e), ("suggestionCode", J.jstr sc)])
      = none := by
  have hb : (m != 0) = true := by simpa using hm
  refine ⟨rfl, ?_, rfl⟩
  simp [postOne, pyIndex, pyDictGet, pyTruthy, pyInt, pyStr, hb]

/-- Witness for claim C9 at concrete field values. -/
theorem startLine_null_single_line_witness :
    postOne (J.jobj [("file", J.jstr "A.java"), ("line", J.jint 10), ("startLine", J.jnull),
        ("guideline", J.jstr "G1"), ("explanation", J.jstr "E1"),
        ("suggestionCode", J.jstr "x")])
      = some (PostAction.lineComment
          ("G1" ++ "\n" ++ "E1" ++ "\n" ++ wrap_suggestion_code (J.jstr "x")) "A.java" 10) ∧
    postOne (J.jobj [("file", J.jstr "A.java"), ("line", J.jint 10), ("startLine", J.jint 3),
        ("guideline", J.jstr "G1"), ("explanation", J.jstr "E1"),
        ("suggestionCode", J.jstr "x")])
      = some (PostAction.rangeComment
          ("G1" ++ "\n" ++ "E1" ++ "\n" ++ wrap_suggestion_code (J.jstr "x")) "A.java" 10 3) ∧
    postOne (J.jobj [("file", J.jstr "A.java"), ("line", J.jint 10),
        ("guideline", J.jstr "G1"), ("explanation", J.jstr "E1"),
        ("suggestionCode", J.jstr "x")])
      = none :=
  startLine_null_single_line "A.java" "G1" "E1" "x" 10 3 (by decide)

/-- Counterexample to claim C9 as stated: a record whose `startLine` is
absent (the key missing rather than null) is not posted at all — the
subscript raises `KeyError`, the per-item handler swallows it, and no
inline comment is created. -/
theorem missing_startLine_skipped :
    postOne (J.jobj [("file", J.jstr "A.java"), ("line", J.jint 10),
        ("guideline", J.jstr "G1"), ("explanation", J.jstr "E1"),
        ("suggestionCode", J.jstr "x")]) = none := rfl

/-! ## Isolation of per-comment posting failures -/

theorem postLoop_append (apiOk : J → Bool) (a b : List J) :
    postLoop apiOk (a ++ b) = postLoop apiOk a ++ postLoop apiOk b := by
  induction a with
  | nil => rfl
  | cons c cs ih =>
    show postLoop apiOk (c :: (cs ++ b)) = _
    cases hc : postOne c with
    | none => simp [postLoop, hc, ih]
    | some a2 => cases hA : apiOk c <;> simp [postLoop, hc, hA, ih]

/-- Claim C10: one failing item in the posting loop — whether its data
raises inside the loop body (`postOne` = none) or its API call fails
(`apiOk` false) — contributes nothing and does not prevent the remaining
comments from being attempted; and the Boolean result of
`post_review_comments` is independent of which per-item calls fail. -/
theorem post_failure_isolated (env : GhEnv) (apiOk apiOk2 : J → Bool)
    (pre post : List J) (c : J)
    (hfail : postOne c = none ∨ apiOk c = false) :
    postLoop apiOk (pre ++ c :: post) = postLoop apiOk pre ++ postLoop apiOk post ∧
    (post_review_comments env apiOk (pre ++ c :: post)).1 =
      (post_review_comments env apiOk2 (pre ++ c :: post)).1 := by
  constructor
  · rw [postLoop_append]
    congr 1
    rcases hfail with h | h
    · simp [postLoop, h]
    · cases hc : postOne c with
      | none => simp [postLoop, hc]
      | some a => simp [postLoop, hc, h]
  · obtain ⟨tok, pri, reach, comm⟩ := env
    cases tok <;> cases pri <;> cases reach <;>
      simp only [post_review_comments] <;>
      by_cases hc1 : (pre ++ c :: post).isEmpty = true <;>
      by_cases hc2 : comm.isEmpty = true <;>
      simp [hc1, hc2]

/-- Witness for claim C10: the middle record (an empty dict, whose
subscript raises) is skipped while the surrounding two records are still
posted, and the overall flag does not depend on the API outcome. -/
theorem post_failure_isolated_witness :
    postLoop (fun _ => true)
        ([J.jobj [("file", J.jstr "A.java"), ("line", J.jint 1), ("startLine", J.jnull),
            ("guideline", J.jstr "G"), ("explanation", J.jstr "E"),
            ("suggestionCode", J.jstr "")]] ++ J.jobj [] ::
          [J.jobj [("file", J.jstr "B.java"), ("line", J.jint 2), ("startLine", J.jnull),
            ("guideline", J.jstr "G"), ("explanation", J.jstr "E"),
            ("suggestionCode", J.jstr "")]])
      = postLoop (fun _ => true)
          [J.jobj [("file", J.jstr "A.java"), ("line", J.jint 1), ("startLine", J.jnull),
            ("guideline", J.jstr "G"), ("explanation", J.jstr "E"),
            ("suggestionCode", J.jstr "")]] ++
        postLoop (fun _ => true)
          [J.jobj [("file", J.jstr "B.java"), ("line", J.jint 2), ("startLine", J.jnull),
            ("guideline", J.jstr "G"), ("explanation", J.jstr "E"),
            ("suggestionCode", J.jstr "")]] ∧
    (post_review_comments ⟨true, some ("o/r", 7), true, ["sha1"]⟩ (fun _ => true)
        ([J.jobj [("file", J.jstr "A.java"), ("line", J.jint 1), ("startLine", J.jnull),
            ("guideline", J.jstr "G"), ("explanation", J.jstr "E"),
            ("suggestionCode", J.jstr "")]] ++ J.jobj [] ::
          [J.jobj [("file", J.jstr "B.java"), ("line", J.jint 2), ("startLine", J.jnull),
            ("guideline", J.jstr "G"), ("explanation", J.jstr "E"),
            ("suggestionCode", J.jstr "")]])).1 =
      (post_review_comments ⟨true, some ("o/r", 7), true, ["sha1"]⟩ (fun _ => false)
        ([J.jobj [("file", J.jstr "A.java"), ("line", J.jint 1), ("startLine", J.jnull),
            ("guideline", J.jstr "G"), ("explanation", J.jstr "E"),
            ("suggestionCode", J.jstr "")]] ++ J.jobj [] ::
          [J.jobj [("file", J.jstr "B.java"), ("line", J.jint 2), ("startLine", J.jnull),
            ("guideline", J.jstr "G"), ("explanation", J.jstr "E"),
            ("suggestionCode", J.jstr "")]])).1 :=
  post_failure_isolated ⟨true, some ("o/r", 7), true, ["sha1"]⟩
    (fun _ => true) (fun _ => false)
    [J.jobj [("file", J.jstr "A.java"), ("line", J.jint 1), ("startLine", J.jnull),
      ("guideline", J.jstr "G"), ("explanation", J.jstr "E"),
      ("suggestionCode", J.jstr "")]]
    [J.jobj [("file", J.jstr "B.java"), ("line", J.jint 2), ("startLine", J.jnull),
      ("guideline", J.jstr "G"), ("explanation", J.jstr "E"),
      ("suggestionCode", J.jstr "")]]
    (J.jobj []) (Or.inl rfl)
